import Mathlib

/-!
# Dual servo sweep with serial control (`src/arcode1.cpp`)

A shallow embedding of the sketch's `loop()` and of the library calls it makes.

* The five globals of the sketch form `State`.
* Everything the sketch does to the outside world (servo writes, serial prints,
  delays) is recorded, in program order, as a list of `Event`s.
* The serial receive buffer is a `List Char`; bytes on the link are taken to be
  non-NUL text, which is what the `String` class stores.
* `int` is `intBits` wide (16 on AVR boards, 32 on ARM boards) and is a parameter;
  `long` and `unsigned long` are 32 bits wide on every Arduino core.
* `millis()` is given the uptime in milliseconds at the instant of the call and
  returns it reduced modulo `2^32`.
-/

namespace Arcode1

/-! ## Machine integers -/

/-- Two's complement reduction of an integer to a signed type of `bits` bits. -/
def wrapSigned (bits : Nat) (z : Int) : Int :=
  (z + 2 ^ (bits - 1)) % 2 ^ bits - 2 ^ (bits - 1)

/-- Predicate: the integer is representable in a signed type of `bits` bits. -/
def fitsSigned (bits : Nat) (z : Int) : Prop :=
  -(2 ^ (bits - 1)) ≤ z ∧ z < 2 ^ (bits - 1)

/-- Conversion of an `int` argument to an `unsigned long` parameter (32 bits). -/
def toULong (z : Int) : Nat :=
  (z % 4294967296).toNat

/-- Value returned by `millis()` when the board has been up for `t` milliseconds. -/
def millis (t : Nat) : Nat :=
  t % 4294967296

/-- Subtraction of two `unsigned long` values, `a - b` in 32-bit arithmetic. -/
def subULong (a b : Nat) : Nat :=
  (a % 4294967296 + (4294967296 - b % 4294967296)) % 4294967296

/-! ## The `String` and `Stream` calls used by the sketch -/

/-- C `isspace` in the default locale: space, `\t`, `\n`, `\v`, `\f`, `\r`. -/
def isspace (c : Char) : Bool :=
  c.toNat == 32 || (9 ≤ c.toNat && c.toNat ≤ 13)

/-- C `isdigit`. -/
def isdigit (c : Char) : Bool :=
  48 ≤ c.toNat && c.toNat ≤ 57

/-- Removal of trailing whitespace, the second half of `String::trim`. -/
def trimEnd (s : List Char) : List Char :=
  (s.reverse.dropWhile isspace).reverse

/-- `String::trim`: strip leading, then trailing, whitespace. -/
def trim (s : List Char) : List Char :=
  trimEnd (s.dropWhile isspace)

/-- `String::startsWith`. -/
def startsWith (s pre : List Char) : Bool :=
  pre.isPrefixOf s

/-- `String::substring(left)`: the tail of the string from index `left`. -/
def substring (s : List Char) (left : Nat) : List Char :=
  s.drop left

/-- Digit loop of `atol`: accumulate decimal digits, stop at the first other character. -/
def parseDigits : Nat → List Char → Nat
  | acc, [] => acc
  | acc, c :: cs => if isdigit c then parseDigits (acc * 10 + (c.toNat - 48)) cs else acc

/-- C `atol`: skip leading whitespace, read an optional sign, then the digits.
The result is a 32-bit `long`; values that do not fit wrap, as in avr-libc. -/
def atol (s : List Char) : Int :=
  match s.dropWhile isspace with
  | [] => 0
  | c :: r =>
    if c = '-' then wrapSigned 32 (-(parseDigits 0 r : Int))
    else if c = '+' then wrapSigned 32 (parseDigits 0 r : Int)
    else wrapSigned 32 (parseDigits 0 (c :: r) : Int)

/-- `String::toInt()` stored into an `int` of `intBits` bits: `atol` on the buffer,
then the conversion from `long` to `int`. -/
def toInt (intBits : Nat) (s : List Char) : Int :=
  wrapSigned intBits (atol s)

/-- `Stream::readStringUntil(terminator)`: the characters before the first terminator
(or the whole buffer when there is none), and what is left in the buffer after the
terminator has been consumed. -/
def readStringUntil (terminator : Char) (input : List Char) : List Char × List Char :=
  (input.takeWhile (fun c => c != terminator),
   (input.dropWhile (fun c => c != terminator)).drop 1)

/-- Digit loop of `Print::printNumber` in base 10. -/
def natDec (n : Nat) : List Char :=
  if n < 10 then [Char.ofNat (48 + n)]
  else natDec (n / 10) ++ [Char.ofNat (48 + n % 10)]
termination_by n
decreasing_by omega

/-- Text that `Serial.print(int)` sends: a minus sign for negatives, then the digits. -/
def decimal (v : Int) : List Char :=
  if v < 0 then '-' :: natDec v.natAbs else natDec v.natAbs

/-! ## State and observable events -/

/-- The globals of the sketch. -/
structure State where
  pos : Int
  reverseCycle : Bool
  running : Bool
  speedDelay : Int
  reverseStartTime : Nat
  deriving DecidableEq, Repr

/-- Values of the globals when `setup()` returns. -/
def initState : State :=
  { pos := 0, reverseCycle := false, running := false, speedDelay := 15,
    reverseStartTime := 0 }

/-- One call the sketch makes to a collaborator. -/
inductive Event where
  | servo1 (angle : Int)
  | servo2 (angle : Int)
  | print (s : List Char)
  | println (s : List Char)
  | printlnInt (v : Int)
  | delay (ms : Nat)
  deriving DecidableEq, Repr

/-- Predicate: the event is a servo write. -/
def Event.isWrite : Event → Bool
  | .servo1 _ => true
  | .servo2 _ => true
  | _ => false

/-- Predicate: the event is a serial print. -/
def Event.isPrint : Event → Bool
  | .print _ => true
  | .println _ => true
  | .printlnInt _ => true
  | _ => false

/-- Lines completed on the serial output, given the text already pending on the
current line. -/
def outputLinesAux : List Char → List Event → List (List Char)
  | _, [] => []
  | cur, .print s :: es => outputLinesAux (cur ++ s) es
  | cur, .println s :: es => (cur ++ s) :: outputLinesAux [] es
  | cur, .printlnInt v :: es => (cur ++ decimal v) :: outputLinesAux [] es
  | cur, _ :: es => outputLinesAux cur es

/-- Lines completed on the serial output by a trace. -/
def outputLines (es : List Event) : List (List Char) :=
  outputLinesAux [] es

/-! ## `loop()` -/

/-- Lines 32-68: dispatch on one line read from the link. `t` is the uptime at which
`millis()` is called, should the command call it. -/
def processCommand (intBits : Nat) (t : Nat) (st : State) (line : List Char) :
    State × List Event :=
  let command := trim line
  if command = "START".toList then
    ({ st with running := true }, [Event.println "Started".toList])
  else if command = "STOP".toList then
    ({ st with running := false }, [Event.println "Stopped".toList])
  else if startsWith command "SPEED:".toList then
    let speedDelay := toInt intBits (substring command 6)
    ({ st with speedDelay := speedDelay },
      [Event.print "Speed set to: ".toList, Event.printlnInt speedDelay])
  else if startsWith command "SERVO1:".toList then
    let angle := toInt intBits (substring command 7)
    (st, [Event.servo1 angle, Event.print "Servo1: ".toList, Event.printlnInt angle])
  else if startsWith command "SERVO2:".toList then
    let angle := toInt intBits (substring command 7)
    (st, [Event.servo2 angle, Event.print "Servo2: ".toList, Event.printlnInt angle])
  else if startsWith command "REVERSE:".toList then
    let val := toInt intBits (substring command 8)
    if val = 1 ∧ st.reverseCycle = false then
      ({ st with reverseCycle := true, reverseStartTime := millis t },
        [Event.println "Reverse mode ON".toList])
    else if val = 0 then
      ({ st with reverseCycle := false }, [Event.println "Reverse mode OFF".toList])
    else (st, [])
  else (st, [])

/-- Lines 28-69: poll the link; when bytes are available read one line and dispatch it.
Returns the new state, the bytes left in the buffer and the events. -/
def pollCommand (intBits : Nat) (t : Nat) (st : State) (input : List Char) :
    State × List Char × List Event :=
  if input.length > 0 then
    let r := readStringUntil '\n' input
    let c := processCommand intBits t st r.1
    (c.1, r.2, c.2)
  else (st, input, [])

/-- Body of the `for` loops at lines 74-80 and 85-91. -/
def sweepStep (st : State) : List Event :=
  [ if st.reverseCycle then Event.servo1 (180 - st.pos) else Event.servo1 st.pos,
    Event.servo2 (180 - st.pos),
    Event.delay (toULong st.speedDelay) ]

/-- The `for` loop from the current `pos`: `while (pos <= 180) { body; pos += 1; }`. -/
def forLoop (st : State) : State × List Event :=
  if st.pos ≤ 180 then
    let r := forLoop { st with pos := st.pos + 1 }
    (r.1, sweepStep st ++ r.2)
  else (st, [])
termination_by (181 - st.pos).toNat
decreasing_by simp_wf; omega

/-- One sweep pass: `for (pos = 0; pos <= 180; pos += 1) { ... }`. -/
def sweepPass (st : State) : State × List Event :=
  forLoop { st with pos := 0 }

/-- Lines 94-98: the reverse-mode timeout test at the end of a cycle, `t` being the
uptime at which `millis()` is called. -/
def timeoutCheck (t : Nat) (st : State) : State × List Event :=
  if st.reverseCycle = true ∧ subULong (millis t) st.reverseStartTime ≥ 120000 then
    ({ st with reverseCycle := false },
      [Event.println "Reverse mode timeout - back to normal".toList])
  else (st, [])

/-- Lines 71-101: the motion phase of one iteration. -/
def motion (tEnd : Nat) (st : State) : State × List Event :=
  if st.running then
    let p1 := sweepPass st
    let p2 := sweepPass p1.1
    let c := timeoutCheck tEnd p2.1
    (c.1, p1.2 ++ p2.2 ++ c.2)
  else (st, [Event.delay 100])

/-- One iteration of `loop()`. `tCmd` and `tEnd` are the uptimes at the two places
where `millis()` may be called. -/
def loop (intBits : Nat) (tCmd tEnd : Nat) (st : State) (input : List Char) :
    State × List Char × List Event :=
  let p := pollCommand intBits tCmd st input
  let m := motion tEnd p.1
  (m.1, p.2.1, p.2.2 ++ m.2)

/-- Several consecutive iterations of `loop()` on the same receive buffer; each pair
gives the two uptimes of one iteration. The events of all iterations are concatenated. -/
def iterations (intBits : Nat) : List (Nat × Nat) → State → List Char →
    State × List Char × List Event
  | [], st, input => (st, input, [])
  | (tCmd, tEnd) :: ts, st, input =>
    let r := loop intBits tCmd tEnd st input
    let r2 := iterations intBits ts r.1 r.2.1
    (r2.1, r2.2.1, r.2.2 ++ r2.2.2)

/-- The same line dispatched once per uptime in the list, in sequence: the final state
and the events of each call. -/
def processRepeated (intBits : Nat) (line : List Char) : List Nat → State →
    State × List (List Event)
  | [], st => (st, [])
  | t :: ts, st =>
    let c := processCommand intBits t st line
    let r := processRepeated intBits line ts c.1
    (r.1, c.2 :: r.2)

/-! ## Descriptions used in the statements -/

/-- The 181 steps of one pass in the order of the positions 0, 1, ..., 180, each step
being the three calls of `sweepStep` at that position. -/
def passTrace (st : State) : List Event :=
  (List.range 181).flatMap (fun i => sweepStep { st with pos := (i : Int) })

/-- The text has a leading number: after optional whitespace and one optional sign the
next character is a decimal digit. -/
def hasLeadingNumber (s : List Char) : Bool :=
  match s.dropWhile isspace with
  | [] => false
  | c :: r =>
    if c = '-' ∨ c = '+' then
      match r with
      | [] => false
      | d :: _ => isdigit d
    else isdigit c

/-- The events of one pass written out: for `p = 0, 1, ..., 180` in order, actuator 1
is sent `p` (or `180 - p` when `rev` is set), actuator 2 is sent `180 - p`, and the
controller pauses for `d` ms. -/
def expectedPass (rev : Bool) (d : Nat) : List Event :=
  (List.range 181).flatMap (fun p =>
    [Event.servo1 (if rev = true then 180 - (p : Int) else (p : Int)),
     Event.servo2 (180 - (p : Int)), Event.delay d])

/-- The line printed when reverse mode expires. -/
def timeoutEvent : Event :=
  Event.println "Reverse mode timeout - back to normal".toList

/-- The globals each time the condition `pos <= 180` of the `for` loop is evaluated,
in program order; the last entry is the state in which the loop exits. -/
def forLoopStates (st : State) : List State :=
  if st.pos ≤ 180 then st :: forLoopStates { st with pos := st.pos + 1 }
  else [st]
termination_by (181 - st.pos).toNat
decreasing_by simp_wf; omega

/-- The states of one sweep pass, from `pos = 0` on. -/
def sweepPassStates (st : State) : List State :=
  forLoopStates { st with pos := 0 }

/-- States reachable from the initial state by any number of iterations of `loop()`,
with any receive buffer and any clock at each iteration. -/
inductive Reachable (intBits : Nat) : State → Prop where
  | init : Reachable intBits initState
  | step (st : State) (tCmd tEnd : Nat) (input : List Char) :
      Reachable intBits st → Reachable intBits (loop intBits tCmd tEnd st input).1

/-- A receive buffer holding the given lines, each followed by its `\n` terminator. -/
def joinLines : List (List Char) → List Char
  | [] => []
  | l :: ls => l ++ '\n' :: joinLines ls

/-! ## Auxiliary lemmas -/

theorem forLoop_eq (k : Nat) : ∀ st : State, st.pos = 181 - (k : Int) → k ≤ 181 →
    forLoop st = ({ st with pos := 181 },
      (List.range k).flatMap (fun i => sweepStep { st with pos := st.pos + (i : Int) })) := by
  induction k with
  | zero =>
    intro st h _
    rw [forLoop]
    have h1 : ¬ st.pos ≤ 180 := by omega
    simp only [h1, if_false, List.range_zero, List.flatMap_nil]
    cases st
    simp_all
  | succ k ih =>
    intro st h hk
    rw [forLoop]
    have h1 : st.pos ≤ 180 := by push_cast at h; omega
    have h2 := ih { st with pos := st.pos + 1 } (by show st.pos + 1 = 181 - (k : Int); push_cast at h; omega) (by omega)
    simp only [h1, if_true, h2, List.range_succ_eq_map, List.flatMap_cons, List.flatMap_map]
    congr 2
    · simp
    · apply congrArg
      funext i
      simp only [Nat.succ_eq_add_one]
      congr 2
      push_cast
      ring

theorem sweepPass_eq (st : State) :
    sweepPass st = ({ st with pos := 181 },
      (List.range 181).flatMap (fun i => sweepStep { st with pos := (i : Int) })) := by
  unfold sweepPass
  rw [forLoop_eq 181 { st with pos := 0 } (by simp) (by omega)]
  simp

theorem length_flatMap_three {α : Type} (f : Nat → List α) (hf : ∀ i, (f i).length = 3) (n : Nat) :
    ((List.range n).flatMap f).length = 3 * n := by
  induction n with
  | zero => simp
  | succ n ih => rw [List.range_succ, List.flatMap_append]; simp [ih, hf]; omega

theorem segment_flatMap_three {α : Type} (f : Nat → List α) (hf : ∀ i, (f i).length = 3) (n p : Nat)
    (hp : p < n) : (((List.range n).flatMap f).drop (3 * p)).take 3 = f p := by
  induction n with
  | zero => omega
  | succ n ih =>
    rw [List.range_succ, List.flatMap_append]
    have hl := length_flatMap_three f hf n
    by_cases h : p < n
    · rw [List.drop_append_of_le_length (by omega), List.take_append_of_le_length (by rw [List.length_drop, hl]; omega)]
      exact ih h
    · have : p = n := by omega
      subst this
      rw [← hl, List.drop_left]
      simp [hf]

theorem wrapSigned_of_fits (bits : Nat) (z : Int) (hb : 1 ≤ bits) (h : fitsSigned bits z) :
    wrapSigned bits z = z := by
  unfold wrapSigned
  unfold fitsSigned at h
  obtain ⟨k, rfl⟩ : ∃ k, bits = k + 1 := ⟨bits - 1, by omega⟩
  simp only [Nat.add_sub_cancel] at h ⊢
  have hp : (0 : Int) < 2 ^ k := by positivity
  have h2 : (2 : Int) ^ (k + 1) = 2 * 2 ^ k := by ring
  rw [h2, Int.emod_eq_of_lt (by omega) (by omega)]
  omega

theorem fitsSigned_mono (a b : Nat) (z : Int) (hab : a ≤ b) (ha : 1 ≤ a) (h : fitsSigned a z) :
    fitsSigned b z := by
  unfold fitsSigned at h ⊢
  have hle : (2 : Int) ^ (a - 1) ≤ 2 ^ (b - 1) :=
    pow_le_pow_right₀ (by norm_num) (by omega)
  omega

theorem fitsSigned_small (bits : Nat) (z : Int) (hb : 16 ≤ bits) (h1 : -32768 ≤ z) (h2 : z < 32768) :
    fitsSigned bits z := by
  apply fitsSigned_mono 16 bits z hb (by omega)
  unfold fitsSigned
  norm_num
  omega

theorem digit_isdigit (d : Nat) (h : d < 10) : isdigit (Char.ofNat (48 + d)) = true := by
  interval_cases d <;> decide

theorem digit_toNat (d : Nat) (h : d < 10) : (Char.ofNat (48 + d)).toNat - 48 = d := by
  interval_cases d <;> decide

theorem isdigit_not_isspace (c : Char) (h : isdigit c = true) : isspace c = false := by
  unfold isdigit at h
  unfold isspace
  simp only [Bool.and_eq_true, decide_eq_true_eq] at h
  simp only [Bool.or_eq_false_iff, beq_eq_false_iff_ne, Bool.and_eq_false_iff, decide_eq_false_iff_not]
  omega

theorem isspace_not_isdigit (c : Char) (h : isspace c = true) : isdigit c = false := by
  cases hd : isdigit c
  · rfl
  · rw [isdigit_not_isspace c hd] at h; exact absurd h (by decide)

theorem parseDigits_natDec (n : Nat) : ∀ (acc : Nat) (rest : List Char),
    parseDigits acc (natDec n ++ rest) = parseDigits (acc * 10 ^ (natDec n).length + n) rest := by
  induction n using Nat.strong_induction_on with
  | _ n ih =>
    intro acc rest
    rw [natDec]
    by_cases h : n < 10
    · simp only [h, if_true, List.singleton_append, List.length_singleton, pow_one]
      rw [parseDigits, digit_isdigit n h, digit_toNat n h]
      simp
    · simp only [h, if_false, List.append_assoc, List.singleton_append, List.length_append,
        List.length_singleton]
      rw [ih (n / 10) (by omega), parseDigits, digit_isdigit _ (Nat.mod_lt _ (by norm_num)),
        digit_toNat _ (Nat.mod_lt _ (by norm_num))]
      simp only [if_true]
      congr 1
      rw [pow_succ]
      have := Nat.div_add_mod n 10
      nlinarith [this]

theorem parseDigits_stop (acc : Nat) (rest : List Char)
    (h : ∀ c ∈ rest.head?, isdigit c = false) : parseDigits acc rest = acc := by
  cases rest with
  | nil => rfl
  | cons c cs =>
    have := h c (by simp)
    simp [parseDigits, this]

theorem natDec_head (n : Nat) : ∃ c tl, natDec n = c :: tl ∧ isdigit c = true := by
  induction n using Nat.strong_induction_on with
  | _ n ih =>
    rw [natDec]
    by_cases h : n < 10
    · exact ⟨_, [], by simp [h], digit_isdigit n h⟩
    · obtain ⟨c, tl, h1, h2⟩ := ih (n / 10) (by omega)
      exact ⟨c, tl ++ [Char.ofNat (48 + n % 10)], by simp [h, h1], h2⟩

theorem atol_cons_other (c : Char) (r : List Char) (hs : isspace c = false)
    (h1 : c ≠ '-') (h2 : c ≠ '+') :
    atol (c :: r) = wrapSigned 32 (parseDigits 0 (c :: r) : Int) := by
  unfold atol
  simp only [List.dropWhile_cons, hs, h1, h2, if_false, Bool.false_eq_true]

theorem atol_digit (c : Char) (r : List Char) (h : isdigit c = true) :
    atol (c :: r) = wrapSigned 32 (parseDigits 0 (c :: r) : Int) := by
  apply atol_cons_other c r (isdigit_not_isspace c h)
  · intro hc; rw [hc] at h; exact absurd h (by decide)
  · intro hc; rw [hc] at h; exact absurd h (by decide)

theorem atol_minus (r : List Char) :
    atol ('-' :: r) = wrapSigned 32 (-(parseDigits 0 r : Int)) := by
  have hs : isspace '-' = false := by decide
  unfold atol
  simp only [List.dropWhile_cons, hs, if_true, Bool.false_eq_true, if_false]

theorem atol_plus (r : List Char) :
    atol ('+' :: r) = wrapSigned 32 (parseDigits 0 r : Int) := by
  have hs : isspace '+' = false := by decide
  have h : '+' ≠ '-' := by decide
  unfold atol
  simp only [List.dropWhile_cons, hs, if_true, Bool.false_eq_true, if_false, h]

theorem dropWhile_append_head {α : Type} (p : α → Bool) (l1 l2 : List α)
    (h : ∀ c ∈ l2.head?, p c = false) (hne : l2 ≠ []) :
    (l1 ++ l2).dropWhile p = l1.dropWhile p ++ l2 := by
  induction l1 with
  | nil =>
    cases l2 with
    | nil => exact absurd rfl hne
    | cons c r =>
      have := h c (by simp)
      simp [List.dropWhile_cons, this]
  | cons a l ih =>
    simp only [List.cons_append, List.dropWhile_cons]
    split
    · exact ih
    · rfl

theorem trim_keyword (a s : List Char) (c0 c1 : Char) (a0 a1 : List Char)
    (h0 : a = c0 :: a0) (h1 : a.reverse = c1 :: a1)
    (hc0 : isspace c0 = false) (hc1 : isspace c1 = false) :
    trim (a ++ s) = a ++ trimEnd s := by
  unfold trim
  have hd : (a ++ s).dropWhile isspace = a ++ s := by
    rw [h0]; simp [List.dropWhile_cons, hc0]
  rw [hd]
  unfold trimEnd
  rw [List.reverse_append, dropWhile_append_head isspace s.reverse a.reverse
    (by rw [h1]; simpa using hc1) (by rw [h1]; simp)]
  simp

theorem trimEnd_split (s : List Char) :
    ∃ ws, s = trimEnd s ++ ws ∧ ∀ c ∈ ws, isspace c = true := by
  refine ⟨(s.reverse.takeWhile isspace).reverse, ?_, ?_⟩
  · unfold trimEnd
    rw [← List.reverse_append, List.takeWhile_append_dropWhile, List.reverse_reverse]
  · intro c hc
    rw [List.mem_reverse] at hc
    exact List.mem_takeWhile_imp hc

theorem parseDigits_append_ws (ws : List Char) (hws : ∀ c ∈ ws, isspace c = true) :
    ∀ (r : List Char) (acc : Nat), parseDigits acc (r ++ ws) = parseDigits acc r := by
  intro r
  induction r with
  | nil =>
    intro acc
    simp only [List.nil_append]
    rw [parseDigits_stop acc ws]
    · rfl
    · intro c hc
      have : c ∈ ws := List.mem_of_mem_head? hc
      exact isspace_not_isdigit c (hws c this)
  | cons c r ih =>
    intro acc
    simp only [List.cons_append, parseDigits]
    split
    · exact ih _
    · rfl

theorem atol_dropWhile (s : List Char) : atol (s.dropWhile isspace) = atol s := by
  unfold atol
  have : (s.dropWhile isspace).dropWhile isspace = s.dropWhile isspace := by
    induction s with
    | nil => rfl
    | cons c r ih =>
      simp only [List.dropWhile_cons]
      split
      · exact ih
      · next h => simp [List.dropWhile_cons, h]
  rw [this]

theorem atol_append_ws (t ws : List Char) (hws : ∀ c ∈ ws, isspace c = true) :
    atol (t ++ ws) = atol t := by
  rw [← atol_dropWhile (t ++ ws), ← atol_dropWhile t]
  cases hd : t.dropWhile isspace with
  | nil =>
    have h1 : (t ++ ws).dropWhile isspace = [] := by
      rw [List.dropWhile_eq_nil_iff] at hd ⊢
      intro c hc
      rcases List.mem_append.mp hc with h | h
      · exact hd c h
      · exact hws c h
    rw [h1]
  | cons c r =>
    have hc : isspace c = false := by
      have := List.head_dropWhile_not isspace t (by rw [hd]; simp)
      simpa [hd] using this
    have h1 : (t ++ ws).dropWhile isspace = c :: (r ++ ws) := by
      rw [List.dropWhile_append, hd]; simp
    rw [h1]
    by_cases hm : c = '-'
    · rw [hm, atol_minus, atol_minus, parseDigits_append_ws ws hws]
    · by_cases hp : c = '+'
      · rw [hp, atol_plus, atol_plus, parseDigits_append_ws ws hws]
      · rw [atol_cons_other c _ hc hm hp, atol_cons_other c _ hc hm hp]
        have := parseDigits_append_ws ws hws (c :: r) 0
        simp only [List.cons_append] at this
        rw [this]

theorem toInt_trimEnd (w : Nat) (s : List Char) : toInt w (trimEnd s) = toInt w s := by
  obtain ⟨ws, h1, h2⟩ := trimEnd_split s
  unfold toInt
  conv_rhs => rw [h1]
  rw [atol_append_ws _ ws h2]

theorem toInt_decimal (w : Nat) (n : Int) (rest : List Char) (hw : 1 ≤ w) (hw2 : w ≤ 32)
    (hn : fitsSigned w n) (hr : ∀ c ∈ rest.head?, isdigit c = false) :
    toInt w (decimal n ++ rest) = n := by
  have h32 : fitsSigned 32 n := fitsSigned_mono w 32 n hw2 hw hn
  unfold toInt
  suffices h : atol (decimal n ++ rest) = n by rw [h]; exact wrapSigned_of_fits w n hw hn
  unfold decimal
  by_cases hneg : n < 0
  · simp only [hneg, if_true, List.cons_append]
    rw [atol_minus, parseDigits_natDec, parseDigits_stop _ rest hr]
    have : ((0 * 10 ^ (natDec n.natAbs).length + n.natAbs : Nat) : Int) = -n := by
      simp only [zero_mul, zero_add]; omega
    rw [this, neg_neg]
    exact wrapSigned_of_fits 32 n (by omega) h32
  · simp only [hneg, if_false]
    obtain ⟨c, tl, h1, h2⟩ := natDec_head n.natAbs
    have h3 : atol (natDec n.natAbs ++ rest) =
        wrapSigned 32 (parseDigits 0 (natDec n.natAbs ++ rest) : Int) := by
      rw [h1]; exact atol_digit c _ h2
    rw [h3, parseDigits_natDec, parseDigits_stop _ rest hr]
    have : ((0 * 10 ^ (natDec n.natAbs).length + n.natAbs : Nat) : Int) = n := by
      simp only [zero_mul, zero_add]; omega
    rw [this]
    exact wrapSigned_of_fits 32 n (by omega) h32

/-! ## The sweep (C1) -/

theorem sweepStep_length (st : State) : (sweepStep st).length = 3 := rfl

theorem passTrace_length (st : State) : (passTrace st).length = 543 :=
  length_flatMap_three (fun i => sweepStep { st with pos := (i : Int) }) (fun _ => rfl) 181

theorem sweepPass_trace (st : State) : sweepPass st = ({ st with pos := 181 }, passTrace st) :=
  sweepPass_eq st

theorem passTrace_pos (st : State) (q : Int) : passTrace { st with pos := q } = passTrace st := rfl

theorem passTrace_segment (st : State) (p : Nat) (hp : p ≤ 180) :
    ((passTrace st).drop (3 * p)).take 3 = sweepStep { st with pos := (p : Int) } :=
  segment_flatMap_three (fun i => sweepStep { st with pos := (i : Int) }) (fun _ => rfl)
    181 p (by omega)

theorem motion_running (t : Nat) (st : State) (h : st.running = true) :
    motion t st = ((timeoutCheck t { st with pos := 181 }).1,
      passTrace st ++ passTrace st ++ (timeoutCheck t { st with pos := 181 }).2) := by
  unfold motion
  rw [if_pos h]
  simp only [sweepPass_trace]
  rfl

theorem motion_idle (t : Nat) (st : State) (h : st.running = false) :
    motion t st = (st, [Event.delay 100]) := by
  unfold motion
  simp [h]

theorem passTrace_not_print (st : State) : ∀ ev ∈ passTrace st, ev.isPrint = false := by
  intro ev hev
  unfold passTrace at hev
  rw [List.mem_flatMap] at hev
  obtain ⟨i, _, hi⟩ := hev
  unfold sweepStep at hi
  simp only [List.mem_cons, List.mem_singleton, List.not_mem_nil, or_false] at hi
  rcases hi with h | h | h
  · subst h; split <;> rfl
  · subst h; rfl
  · subst h; rfl

/-- C1: for every position `p` in 0..180 and every state, the step at `p` of a sweep
pass commands actuator 1 to `p` when `reverseCycle` is false and to `180 - p` when it
is true, and commands actuator 2 to `180 - p` in both cases; in a running iteration
this is the step at `p` of the first pass and of the second pass. -/
theorem sweep_symmetry (st : State) (p : Nat) (hp : p ≤ 180) :
    (st.reverseCycle = false →
      ((sweepPass st).2.drop (3 * p)).take 3 =
        [Event.servo1 p, Event.servo2 (180 - p), Event.delay (toULong st.speedDelay)]) ∧
    (st.reverseCycle = true →
      ((sweepPass st).2.drop (3 * p)).take 3 =
        [Event.servo1 (180 - p), Event.servo2 (180 - p),
          Event.delay (toULong st.speedDelay)]) ∧
    (st.running = true → ∀ t : Nat,
      ((motion t st).2.drop (3 * p)).take 3 = ((sweepPass st).2.drop (3 * p)).take 3 ∧
      ((motion t st).2.drop (3 * (181 + p))).take 3 =
        ((sweepPass st).2.drop (3 * p)).take 3) := by
  have hseg := passTrace_segment st p hp
  have hlen := passTrace_length st
  rw [sweepPass_trace]
  simp only [hseg]
  refine ⟨?_, ?_, ?_⟩
  · intro h; simp [sweepStep, h]
  · intro h; simp [sweepStep, h]
  · intro hrun t
    rw [motion_running t st hrun]
    simp only [List.append_assoc]
    constructor
    · rw [List.drop_append_of_le_length (by omega),
        List.take_append_of_le_length (by rw [List.length_drop]; omega)]
      exact hseg
    · have e : 3 * (181 + p) = (passTrace st).length + 3 * p := by omega
      rw [e, List.drop_append, List.drop_append_of_le_length (by omega),
        List.take_append_of_le_length (by rw [List.length_drop]; omega)]
      exact hseg

/-- C1 at position 90 from the initial state: both actuators are sent to 90. -/
theorem sweep_symmetry_witness :
    (90 : Nat) ≤ 180 ∧
    (((sweepPass initState).2.drop (3 * 90)).take 3 =
        [Event.servo1 90, Event.servo2 90, Event.delay 15]) := by
  refine ⟨by decide, ?_⟩
  have h := (sweep_symmetry initState 90 (by decide)).1 rfl
  simpa [initState, toULong] using h

/-! ## Reverse-mode timeout (C2) -/

theorem subULong_millis (T0 e : Nat) (he : e < 4294967296) :
    subULong (millis (T0 + e)) (millis T0) = e := by
  unfold subULong millis
  omega

theorem pollCommand_nil (w t : Nat) (st : State) : pollCommand w t st [] = (st, [], []) := rfl

theorem timeoutCheck_fire (t : Nat) (st : State) (h1 : st.reverseCycle = true)
    (h2 : 120000 ≤ subULong (millis t) st.reverseStartTime) :
    timeoutCheck t st = ({ st with reverseCycle := false }, [timeoutEvent]) := by
  unfold timeoutCheck
  rw [if_pos ⟨h1, h2⟩]
  rfl

theorem timeoutCheck_keep (t : Nat) (st : State)
    (h : st.reverseCycle = false ∨ subULong (millis t) st.reverseStartTime < 120000) :
    timeoutCheck t st = (st, []) := by
  unfold timeoutCheck
  rw [if_neg]
  rintro ⟨h1, h2⟩
  rcases h with h | h
  · rw [h] at h1; exact absurd h1 (by decide)
  · omega

theorem loop_nil_running (w tCmd tEnd : Nat) (st : State) (hrun : st.running = true) :
    loop w tCmd tEnd st [] =
      ((timeoutCheck tEnd { st with pos := 181 }).1, [],
        passTrace st ++ passTrace st ++ (timeoutCheck tEnd { st with pos := 181 }).2) := by
  simp only [loop, pollCommand_nil]
  rw [motion_running tEnd st hrun]
  rfl

/-- C3 as stated fails in two ways. With `running` false the iteration idles, the
timeout test of lines 94-98 is never reached, and `reverseCycle` stays true although
120000 ms have elapsed since `reverseStartTime`. With `running` true, reverse mode
enabled at uptime 0 and the test made at uptime `2^32 + 5`, the 32-bit difference
`millis() - reverseStartTime` is 5 and `reverseCycle` stays true as well. -/
theorem reverse_expiry_counterexample :
    (({ pos := 0, reverseCycle := true, running := false, speedDelay := 15,
        reverseStartTime := 0 } : State).reverseStartTime = millis 0 ∧
     ¬ (loop 16 120000 120000
        { pos := 0, reverseCycle := true, running := false, speedDelay := 15,
          reverseStartTime := 0 } []).1.reverseCycle = false ∧
     (loop 16 120000 120000
        { pos := 0, reverseCycle := true, running := false, speedDelay := 15,
          reverseStartTime := 0 } []).2.2 = [Event.delay 100]) ∧
    (({ pos := 0, reverseCycle := true, running := true, speedDelay := 15,
        reverseStartTime := 0 } : State).reverseStartTime = millis 0 ∧
     120000 ≤ 4294967296 + 5 ∧
     ¬ (loop 16 (4294967296 + 5) (4294967296 + 5)
        { pos := 0, reverseCycle := true, running := true, speedDelay := 15,
          reverseStartTime := 0 } []).1.reverseCycle = false) := by
  have hk := timeoutCheck_keep (4294967296 + 5) (State.mk 181 true true 15 0)
    (Or.inr (by decide))
  have hl := loop_nil_running 16 (4294967296 + 5) (4294967296 + 5)
    (State.mk 0 true true 15 0) rfl
  have hl2 : (loop 16 (4294967296 + 5) (4294967296 + 5) (State.mk 0 true true 15 0) []).1 =
      State.mk 181 true true 15 0 := by
    rw [hl]
    show (timeoutCheck (4294967296 + 5) (State.mk 181 true true 15 0)).1 = _
    rw [hk]
  refine ⟨by decide, by decide, by decide, ?_⟩
  rw [hl2]
  decide

/-- C3 (amended): for every state with `running` true in which `reverseCycle` is true,
reverse mode having been enabled at uptime `T0`: if at least 120000 ms have elapsed
since then (`e0`), and the timeout test at the end of the cycle, `d` ms later, is still
made less than `2^32` ms (one period of the millisecond clock) after the enable, one
iteration of the control loop with no pending command ends with `reverseCycle` false. -/
theorem reverse_expiry_running (w tCmd T0 e0 d : Nat) (st : State)
    (hrun : st.running = true) (hrev : st.reverseCycle = true)
    (hT0 : st.reverseStartTime = millis T0)
    (h1 : 120000 ≤ e0) (h2 : e0 + d < 4294967296) :
    (loop w tCmd (T0 + e0 + d) st []).1.reverseCycle = false := by
  have hsub : subULong (millis (T0 + e0 + d))
      ({ st with pos := 181 } : State).reverseStartTime = e0 + d := by
    show subULong (millis (T0 + e0 + d)) st.reverseStartTime = e0 + d
    rw [hT0, Nat.add_assoc]
    exact subULong_millis T0 (e0 + d) h2
  have hf := timeoutCheck_fire (T0 + e0 + d) { st with pos := 181 } hrev
    (by rw [hsub]; omega)
  rw [loop_nil_running w tCmd (T0 + e0 + d) st hrun, hf]

/-- C3 (amended) on a running state whose reverse mode was enabled at uptime 1000, with
120000 ms elapsed at the start of the iteration and a cycle of 5430 ms. -/
theorem reverse_expiry_running_witness :
    (loop 16 121000 (1000 + 120000 + 5430)
      { pos := 0, reverseCycle := true, running := true, speedDelay := 15,
        reverseStartTime := 1000 } []).1.reverseCycle = false :=
  reverse_expiry_running 16 121000 1000 120000 5430
    { pos := 0, reverseCycle := true, running := true, speedDelay := 15,
      reverseStartTime := 1000 } rfl rfl (by decide) (by decide) (by decide)

theorem takeWhile_line (l rest : List Char) (h : ∀ c ∈ l, c ≠ '\n') :
    List.takeWhile (fun c => c != '\n') (l ++ '\n' :: rest) = l := by
  induction l with
  | nil => simp [List.takeWhile_cons]
  | cons a l ih =>
    have ha : a ≠ '\n' := h a (by simp)
    simp only [List.cons_append, List.takeWhile_cons, bne_iff_ne, ne_eq, ha, not_false_eq_true,
      if_true, List.cons.injEq, true_and]
    exact ih (fun c hc => h c (List.mem_cons_of_mem _ hc))

theorem dropWhile_line (l rest : List Char) (h : ∀ c ∈ l, c ≠ '\n') :
    List.dropWhile (fun c => c != '\n') (l ++ '\n' :: rest) = '\n' :: rest := by
  induction l with
  | nil => simp [List.dropWhile_cons]
  | cons a l ih =>
    have ha : a ≠ '\n' := h a (by simp)
    simp only [List.cons_append, List.dropWhile_cons, bne_iff_ne, ne_eq, ha, not_false_eq_true,
      if_true]
    exact ih (fun c hc => h c (List.mem_cons_of_mem _ hc))

theorem readStringUntil_line (l rest : List Char) (h : ∀ c ∈ l, c ≠ '\n') :
    readStringUntil '\n' (l ++ '\n' :: rest) = (l, rest) := by
  unfold readStringUntil
  rw [takeWhile_line l rest h, dropWhile_line l rest h]
  rfl

theorem pollCommand_cons (w t : Nat) (st : State) (input : List Char) (h : input ≠ []) :
    pollCommand w t st input =
      ((processCommand w t st (readStringUntil '\n' input).1).1,
        (readStringUntil '\n' input).2,
        (processCommand w t st (readStringUntil '\n' input).1).2) := by
  unfold pollCommand
  rw [if_pos (List.length_pos.mpr h)]

theorem processCommand_stop (w t : Nat) (st : State) :
    processCommand w t st "STOP".toList =
      ({ st with running := false }, [Event.println "Stopped".toList]) := by
  have htrim : trim "STOP".toList = "STOP".toList := by decide
  unfold processCommand
  simp only [htrim]
  rfl

theorem timeoutCheck_running (t : Nat) (st : State) :
    (timeoutCheck t st).1.running = st.running := by
  unfold timeoutCheck
  split <;> rfl

theorem loop_running (w tCmd tEnd : Nat) (st : State) (input : List Char) :
    (loop w tCmd tEnd st input).1.running = (pollCommand w tCmd st input).1.running := by
  simp only [loop]
  cases hr : (pollCommand w tCmd st input).1.running
  · rw [motion_idle _ _ hr, hr]
  · rw [motion_running _ _ hr, timeoutCheck_running]
    exact hr

/-- C4: when `running` is true after the poll at the top of an iteration, two receive
queues that agree on the line read by that poll give the same state and the same
events, and the events are those of the command followed by two complete passes of 181
steps each (and the timeout line, if any). A `STOP` queued behind the line read is
still queued after the iteration, which leaves `running` true; the next iteration reads
it, sets `running` to false and issues no actuator write. -/
theorem command_boundary (w tCmd tEnd : Nat) (st : State) (in1 in2 : List Char)
    (hrun : (pollCommand w tCmd st in1).1.running = true)
    (h1 : in1 ≠ []) (h2 : in2 ≠ [])
    (hline : (readStringUntil '\n' in1).1 = (readStringUntil '\n' in2).1) :
    (loop w tCmd tEnd st in1).1 = (loop w tCmd tEnd st in2).1 ∧
    (loop w tCmd tEnd st in1).2.2 = (loop w tCmd tEnd st in2).2.2 ∧
    (loop w tCmd tEnd st in1).2.2 =
      (pollCommand w tCmd st in1).2.2 ++
        (passTrace (pollCommand w tCmd st in1).1 ++ passTrace (pollCommand w tCmd st in1).1 ++
          (timeoutCheck tEnd { (pollCommand w tCmd st in1).1 with pos := 181 }).2) ∧
    (passTrace (pollCommand w tCmd st in1).1).length = 3 * 181 ∧
    (∀ l rest : List Char, (∀ c ∈ l, c ≠ '\n') →
      in1 = l ++ '\n' :: ("STOP\n".toList ++ rest) →
      (loop w tCmd tEnd st in1).1.running = true ∧
      (loop w tCmd tEnd st in1).2.1 = "STOP\n".toList ++ rest ∧
      ∀ tCmd2 tEnd2 : Nat,
        (loop w tCmd2 tEnd2 (loop w tCmd tEnd st in1).1 (loop w tCmd tEnd st in1).2.1).1.running
          = false ∧
        (loop w tCmd2 tEnd2 (loop w tCmd tEnd st in1).1 (loop w tCmd tEnd st in1).2.1).2.2
          = [Event.println "Stopped".toList, Event.delay 100]) := by
  have hp : (pollCommand w tCmd st in1).1 = (pollCommand w tCmd st in2).1 ∧
      (pollCommand w tCmd st in1).2.2 = (pollCommand w tCmd st in2).2.2 := by
    rw [pollCommand_cons w tCmd st in1 h1, pollCommand_cons w tCmd st in2 h2, hline]
    exact ⟨rfl, rfl⟩
  refine ⟨?_, ?_, ?_, passTrace_length _, ?_⟩
  · simp only [loop, hp.1]
  · simp only [loop, hp.1, hp.2]
  · simp only [loop]
    rw [motion_running _ _ hrun]
  · intro l rest hl hin
    have hq : (loop w tCmd tEnd st in1).2.1 = "STOP\n".toList ++ rest := by
      simp only [loop]
      rw [pollCommand_cons w tCmd st in1 h1, hin, readStringUntil_line l _ hl]
    refine ⟨by rw [loop_running]; exact hrun, hq, ?_⟩
    intro tCmd2 tEnd2
    rw [hq]
    have hr : readStringUntil '\n' ("STOP\n".toList ++ rest) = ("STOP".toList, rest) :=
      readStringUntil_line "STOP".toList rest (by decide)
    have hpoll : pollCommand w tCmd2 (loop w tCmd tEnd st in1).1 ("STOP\n".toList ++ rest) =
        ({ (loop w tCmd tEnd st in1).1 with running := false }, rest,
          [Event.println "Stopped".toList]) := by
      rw [pollCommand_cons _ _ _ _ (by simp), hr, processCommand_stop]
    simp only [loop, hpoll]
    rw [motion_idle _ _ rfl]
    exact ⟨rfl, rfl⟩

/-- C4 on the queue `START`, `STOP`: the first iteration leaves `STOP` queued and
`running` true, and issues the same events as with `FOO` queued behind `START`. -/
theorem command_boundary_witness :
    (loop 16 0 0 initState "START\nSTOP\n".toList).1.running = true ∧
    (loop 16 0 0 initState "START\nSTOP\n".toList).2.1 = "STOP\n".toList ∧
    (loop 16 0 0 initState "START\nSTOP\n".toList).2.2 =
      (loop 16 0 0 initState "START\nFOO\n".toList).2.2 :=
  ⟨((command_boundary 16 0 0 initState "START\nSTOP\n".toList "START\nFOO\n".toList
      (by decide) (by decide) (by decide) (by decide)).2.2.2.2
      "START".toList [] (by decide) (by decide)).1,
   ((command_boundary 16 0 0 initState "START\nSTOP\n".toList "START\nFOO\n".toList
      (by decide) (by decide) (by decide) (by decide)).2.2.2.2
      "START".toList [] (by decide) (by decide)).2.1,
   (command_boundary 16 0 0 initState "START\nSTOP\n".toList "START\nFOO\n".toList
      (by decide) (by decide) (by decide) (by decide)).2.1⟩

/-! ## Command dispatch (C5, C6, C7) -/

theorem toInt_small (w : Nat) (s : List Char) (z : Int) (hw : 16 ≤ w) (hz : atol s = z)
    (h1 : -32768 ≤ z) (h2 : z < 32768) : toInt w s = z := by
  unfold toInt
  rw [hz]
  exact wrapSigned_of_fits w z (by omega) (fitsSigned_small w z hw h1 h2)

theorem processCommand_reverse (w t : Nat) (st : State) (s : List Char) :
    processCommand w t st ("REVERSE:".toList ++ s) =
      if toInt w s = 1 ∧ st.reverseCycle = false then
        ({ st with reverseCycle := true, reverseStartTime := millis t },
          [Event.println "Reverse mode ON".toList])
      else if toInt w s = 0 then
        ({ st with reverseCycle := false }, [Event.println "Reverse mode OFF".toList])
      else (st, []) := by
  have htrim : trim ("REVERSE:".toList ++ s) = "REVERSE:".toList ++ trimEnd s :=
    trim_keyword _ _ 'R' ':' _ _ rfl rfl (by decide) (by decide)
  unfold processCommand
  simp only [htrim]
  have e : "REVERSE:".toList = ['R', 'E', 'V', 'E', 'R', 'S', 'E', ':'] := rfl
  simp [e, startsWith, substring, toInt_trimEnd]

/-- C6: with `reverseCycle` true and `reverseStartTime = T0`, the command `REVERSE:1`
leaves `reverseStartTime` equal to `T0` and `reverseCycle` true, changes no other field
and prints nothing, whatever the clock reads. -/
theorem reverse_enable_no_restamp (w t T0 : Nat) (st : State) (hw : 16 ≤ w)
    (hrev : st.reverseCycle = true) (hT0 : st.reverseStartTime = T0) :
    (processCommand w t st "REVERSE:1".toList).1.reverseStartTime = T0 ∧
    (processCommand w t st "REVERSE:1".toList).1.reverseCycle = true ∧
    (processCommand w t st "REVERSE:1".toList).1 = st ∧
    (processCommand w t st "REVERSE:1".toList).2 = [] := by
  have hv : toInt w "1".toList = 1 := toInt_small w _ 1 hw (by decide) (by decide) (by decide)
  have h := processCommand_reverse w t st "1".toList
  have e : "REVERSE:".toList ++ "1".toList = "REVERSE:1".toList := rfl
  rw [e, hv, if_neg (by rw [hrev]; simp), if_neg (by decide)] at h
  rw [h]
  exact ⟨hT0, hrev, rfl, rfl⟩

/-- C6 with `T0 = 5000` and the clock at 999999. -/
theorem reverse_enable_no_restamp_witness :
    (processCommand 16 999999
        { pos := 0, reverseCycle := true, running := true, speedDelay := 15,
          reverseStartTime := 5000 } "REVERSE:1".toList).1.reverseStartTime
      = 5000 ∧
    (processCommand 16 999999
        { pos := 0, reverseCycle := true, running := true, speedDelay := 15,
          reverseStartTime := 5000 } "REVERSE:1".toList).2 = [] :=
  ⟨(reverse_enable_no_restamp 16 999999 5000
      { pos := 0, reverseCycle := true, running := true, speedDelay := 15,
        reverseStartTime := 5000 } (by decide) rfl rfl).1,
   (reverse_enable_no_restamp 16 999999 5000
      { pos := 0, reverseCycle := true, running := true, speedDelay := 15,
        reverseStartTime := 5000 } (by decide) rfl rfl).2.2.2⟩

/-- C7: with `reverseCycle` false, the command `REVERSE:1` sets `reverseCycle` to true,
sets `reverseStartTime` to the value `millis()` returns at that instant, prints exactly
the line "Reverse mode ON", and leaves `running`, `speedDelay` and `pos` unchanged. -/
theorem reverse_enable (w t : Nat) (st : State) (hw : 16 ≤ w)
    (hrev : st.reverseCycle = false) :
    (processCommand w t st "REVERSE:1".toList).1 =
      { st with reverseCycle := true, reverseStartTime := millis t } ∧
    (processCommand w t st "REVERSE:1".toList).2 = [Event.println "Reverse mode ON".toList] ∧
    outputLines (processCommand w t st "REVERSE:1".toList).2 = ["Reverse mode ON".toList] ∧
    (t < 4294967296 → (processCommand w t st "REVERSE:1".toList).1.reverseStartTime = t) := by
  have hv : toInt w "1".toList = 1 := toInt_small w _ 1 hw (by decide) (by decide) (by decide)
  have h := processCommand_reverse w t st "1".toList
  have e : "REVERSE:".toList ++ "1".toList = "REVERSE:1".toList := rfl
  rw [e, hv, if_pos ⟨rfl, hrev⟩] at h
  rw [h]
  refine ⟨rfl, rfl, rfl, ?_⟩
  intro ht
  show millis t = t
  unfold millis
  omega

/-- C7 from the initial state with the clock at 4242. -/
theorem reverse_enable_witness :
    (processCommand 16 4242 initState "REVERSE:1".toList).1 =
      { pos := 0, reverseCycle := true, running := false, speedDelay := 15,
        reverseStartTime := 4242 } ∧
    (processCommand 16 4242 initState "REVERSE:1".toList).2 =
      [Event.println "Reverse mode ON".toList] :=
  ⟨(reverse_enable 16 4242 initState (by decide) rfl).1,
   (reverse_enable 16 4242 initState (by decide) rfl).2.1⟩

/-! ## `REVERSE:0` and `SPEED:` (C8, C9) -/

theorem processCommand_reverse_off (w t : Nat) (st : State) (hw : 16 ≤ w) :
    processCommand w t st "REVERSE:0".toList =
      ({ st with reverseCycle := false }, [Event.println "Reverse mode OFF".toList]) := by
  have hv : toInt w "0".toList = 0 := toInt_small w _ 0 hw (by decide) (by decide) (by decide)
  have h := processCommand_reverse w t st "0".toList
  have e : "REVERSE:".toList ++ "0".toList = "REVERSE:0".toList := rfl
  rw [e, hv, if_neg (fun hc => absurd hc.1 (by decide)), if_pos rfl] at h
  exact h

theorem processRepeated_reverse_off (w : Nat) (hw : 16 ≤ w) (ts : List Nat) :
    ∀ st : State, ts ≠ [] →
      (processRepeated w "REVERSE:0".toList ts st).1 = { st with reverseCycle := false } ∧
      ∀ evs ∈ (processRepeated w "REVERSE:0".toList ts st).2,
        evs = [Event.println "Reverse mode OFF".toList] := by
  induction ts with
  | nil => intro st h; exact absurd rfl h
  | cons t ts ih =>
    intro st _
    unfold processRepeated
    simp only [processCommand_reverse_off w t st hw]
    cases ts with
    | nil =>
      refine ⟨rfl, ?_⟩
      intro evs hevs
      simpa [processRepeated] using hevs
    | cons t2 ts2 =>
      obtain ⟨h1, h2⟩ := ih { st with reverseCycle := false } (by simp)
      refine ⟨h1, ?_⟩
      intro evs hevs
      rcases List.mem_cons.mp hevs with h | h
      · exact h
      · exact h2 evs h

/-- C8: `REVERSE:0` is idempotent. From any state, dispatching `REVERSE:0` `k ≥ 1`
times in sequence (at any uptimes) ends with `reverseCycle` false; the state after the
`k` calls equals the state after a single call; and every call prints the line
"Reverse mode OFF" no more than once (exactly once, and nothing else). -/
theorem reverse_off_idempotent (w k : Nat) (ts : List Nat) (st : State) (hw : 16 ≤ w)
    (hk : 1 ≤ k) (hts : ts.length = k) :
    (processRepeated w "REVERSE:0".toList ts st).1.reverseCycle = false ∧
    (∀ t : Nat, (processRepeated w "REVERSE:0".toList ts st).1 =
      (processCommand w t st "REVERSE:0".toList).1) ∧
    (processRepeated w "REVERSE:0".toList ts st).2.length = k ∧
    (∀ evs ∈ (processRepeated w "REVERSE:0".toList ts st).2,
      evs.count (Event.println "Reverse mode OFF".toList) ≤ 1 ∧
      evs = [Event.println "Reverse mode OFF".toList]) := by
  have hne : ts ≠ [] := by
    intro h; rw [h] at hts; simp at hts; omega
  obtain ⟨h1, h2⟩ := processRepeated_reverse_off w hw ts st hne
  refine ⟨by rw [h1], ?_, ?_, ?_⟩
  · intro t
    rw [h1, processCommand_reverse_off w t st hw]
  · rw [← hts]
    clear h1 h2 hne hts
    induction ts generalizing st with
    | nil => rfl
    | cons t ts ih =>
      unfold processRepeated
      simp only [List.length_cons]
      rw [ih]
  · intro evs hevs
    have := h2 evs hevs
    subst this
    exact ⟨by decide, rfl⟩

/-- C8 with three calls, from a state in reverse mode and from the initial state. -/
theorem reverse_off_idempotent_witness :
    (processRepeated 16 "REVERSE:0".toList [10, 20, 30]
      { pos := 0, reverseCycle := true, running := true, speedDelay := 15,
        reverseStartTime := 7 }).1.reverseCycle = false ∧
    (processRepeated 16 "REVERSE:0".toList [10, 20, 30] initState).1.reverseCycle = false :=
  ⟨(reverse_off_idempotent 16 3 [10, 20, 30]
      { pos := 0, reverseCycle := true, running := true, speedDelay := 15,
        reverseStartTime := 7 } (by decide) (by decide) rfl).1,
   (reverse_off_idempotent 16 3 [10, 20, 30] initState (by decide) (by decide) rfl).1⟩

theorem hasLeadingNumber_false (s : List Char) (h : hasLeadingNumber s = false) :
    atol s = 0 := by
  unfold hasLeadingNumber at h
  unfold atol
  cases hd : s.dropWhile isspace with
  | nil => rfl
  | cons c r =>
    rw [hd] at h
    simp only at h ⊢
    by_cases hm : c = '-'
    · simp only [hm, true_or, if_true] at h ⊢
      cases r with
      | nil => rfl
      | cons d r2 =>
        simp only at h
        simp [parseDigits, h, wrapSigned]
    · by_cases hp : c = '+'
      · have hpm : ('+' : Char) ≠ '-' := by decide
        simp only [hp, or_true, if_true, hpm, if_false] at h ⊢
        cases r with
        | nil => rfl
        | cons d r2 =>
          simp only at h
          simp [parseDigits, h, wrapSigned]
      · simp only [hm, hp, or_self, if_false] at h ⊢
        simp [parseDigits, h, wrapSigned]

theorem toInt_of_no_number (w : Nat) (s : List Char) (hw : 16 ≤ w)
    (h : hasLeadingNumber s = false) : toInt w s = 0 :=
  toInt_small w s 0 hw (hasLeadingNumber_false s h) (by decide) (by decide)

theorem atol_skip_ws (ws x : List Char) (hws : ∀ c ∈ ws, isspace c = true) :
    atol (ws ++ x) = atol x := by
  rw [← atol_dropWhile (ws ++ x), ← atol_dropWhile x]
  congr 1
  induction ws with
  | nil => rfl
  | cons a l ih =>
    have ha : isspace a = true := hws a (by simp)
    simp only [List.cons_append, List.dropWhile_cons, ha, if_true]
    exact ih (fun c hc => hws c (List.mem_cons_of_mem _ hc))

theorem processCommand_speed (w t : Nat) (st : State) (s : List Char) :
    processCommand w t st ("SPEED:".toList ++ s) =
      ({ st with speedDelay := toInt w s },
        [Event.print "Speed set to: ".toList, Event.printlnInt (toInt w s)]) := by
  have htrim : trim ("SPEED:".toList ++ s) = "SPEED:".toList ++ trimEnd s :=
    trim_keyword _ _ 'S' ':' _ _ rfl rfl (by decide) (by decide)
  unfold processCommand
  simp only [htrim]
  have e : "SPEED:".toList = ['S', 'P', 'E', 'E', 'D', ':'] := rfl
  simp [e, startsWith, substring, toInt_trimEnd]

/-- C9: for every line `SPEED:<s>`, the command stores in `speedDelay` the `int` that
`toInt` yields for `s`, prints "Speed set to: " followed by the value now stored in
`speedDelay`, changes no other field and issues no actuator write. The stored value is
`n` when `s` starts with the decimal text of an integer `n` that fits the platform `int`
(after optional whitespace, and followed by a character that is not a digit), and `0`
when `s` has no leading number. -/
theorem speed_command (w t : Nat) (st : State) (s : List Char) (hw : 16 ≤ w) (hw2 : w ≤ 32) :
    (processCommand w t st ("SPEED:".toList ++ s)).1 =
      { st with speedDelay := (processCommand w t st ("SPEED:".toList ++ s)).1.speedDelay } ∧
    (processCommand w t st ("SPEED:".toList ++ s)).1.speedDelay = toInt w s ∧
    (processCommand w t st ("SPEED:".toList ++ s)).2 =
      [Event.print "Speed set to: ".toList,
        Event.printlnInt (processCommand w t st ("SPEED:".toList ++ s)).1.speedDelay] ∧
    outputLines (processCommand w t st ("SPEED:".toList ++ s)).2 =
      ["Speed set to: ".toList ++
        decimal (processCommand w t st ("SPEED:".toList ++ s)).1.speedDelay] ∧
    (processCommand w t st ("SPEED:".toList ++ s)).2.filter Event.isWrite = [] ∧
    (∀ (n : Int) (ws rest : List Char), fitsSigned w n → (∀ c ∈ ws, isspace c = true) →
      s = ws ++ (decimal n ++ rest) → (∀ c ∈ rest.head?, isdigit c = false) →
      (processCommand w t st ("SPEED:".toList ++ s)).1.speedDelay = n) ∧
    (hasLeadingNumber s = false →
      (processCommand w t st ("SPEED:".toList ++ s)).1.speedDelay = 0) := by
  rw [processCommand_speed]
  refine ⟨rfl, rfl, rfl, rfl, rfl, ?_, ?_⟩
  · intro n ws rest hn hws hs hr
    show toInt w s = n
    rw [hs]
    have h := toInt_decimal w n rest (by omega) hw2 hn hr
    unfold toInt at h ⊢
    rw [atol_skip_ws ws _ hws]
    exact h
  · intro h
    exact toInt_of_no_number w s hw h

/-- C9 on `SPEED:abc` (stores 0) and `SPEED: -250ms` (stores -250). -/
theorem speed_command_witness :
    (processCommand 16 0 initState ("SPEED:".toList ++ "abc".toList)).1.speedDelay = 0 ∧
    (processCommand 16 0 initState ("SPEED:".toList ++ " -250ms".toList)).1.speedDelay = -250 ∧
    outputLines (processCommand 16 0 initState ("SPEED:".toList ++ "abc".toList)).2 =
      ["Speed set to: ".toList ++
        decimal (processCommand 16 0 initState ("SPEED:".toList ++ "abc".toList)).1.speedDelay] :=
  ⟨(speed_command 16 0 initState "abc".toList (by decide) (by decide)).2.2.2.2.2.2 (by decide),
   (speed_command 16 0 initState " -250ms".toList (by decide) (by decide)).2.2.2.2.2.1
      (-250) " ".toList "ms".toList (by unfold fitsSigned; decide) (by decide)
      (by simp [decimal, natDec]) (by decide),
   (speed_command 16 0 initState "abc".toList (by decide) (by decide)).2.2.2.1⟩

/-! ## Direct positioning (C10) -/

theorem processCommand_servo1 (w t : Nat) (st : State) (s : List Char) :
    processCommand w t st ("SERVO1:".toList ++ s) =
      (st, [Event.servo1 (toInt w s), Event.print "Servo1: ".toList,
        Event.printlnInt (toInt w s)]) := by
  have htrim : trim ("SERVO1:".toList ++ s) = "SERVO1:".toList ++ trimEnd s :=
    trim_keyword _ _ 'S' ':' _ _ rfl rfl (by decide) (by decide)
  unfold processCommand
  simp only [htrim]
  have e : "SERVO1:".toList = ['S', 'E', 'R', 'V', 'O', '1', ':'] := rfl
  simp [e, startsWith, substring, toInt_trimEnd]

theorem processCommand_servo2 (w t : Nat) (st : State) (s : List Char) :
    processCommand w t st ("SERVO2:".toList ++ s) =
      (st, [Event.servo2 (toInt w s), Event.print "Servo2: ".toList,
        Event.printlnInt (toInt w s)]) := by
  have htrim : trim ("SERVO2:".toList ++ s) = "SERVO2:".toList ++ trimEnd s :=
    trim_keyword _ _ 'S' ':' _ _ rfl rfl (by decide) (by decide)
  unfold processCommand
  simp only [htrim]
  have e : "SERVO2:".toList = ['S', 'E', 'R', 'V', 'O', '2', ':'] := rfl
  simp [e, startsWith, substring, toInt_trimEnd]

theorem toInt_decimal_self (w : Nat) (n : Int) (hw : 16 ≤ w) (hw2 : w ≤ 32)
    (hn : fitsSigned w n) : toInt w (decimal n) = n := by
  have h := toInt_decimal w n [] (by omega) hw2 hn (by simp)
  simpa using h

/-- C10 as stated fails for integers outside the range of `int`: on a board with a
16-bit `int` the line `SERVO1:70000` writes 4464 to actuator 1, and on a board with a
32-bit `int` the line `SERVO1:4294967301` does not write 4294967301 either. -/
theorem servo_direct_overflow_counterexample :
    (processCommand 16 0 initState ("SERVO1:".toList ++ decimal 70000)).2.filter Event.isWrite
      = [Event.servo1 4464] ∧
    (processCommand 16 0 initState ("SERVO1:".toList ++ decimal 70000)).2.filter Event.isWrite
      ≠ [Event.servo1 70000] ∧
    (processCommand 32 0 initState ("SERVO1:".toList ++ decimal 4294967301)).2.filter
      Event.isWrite ≠ [Event.servo1 4294967301] := by
  have h1 : decimal 70000 = "70000".toList := by simp [decimal, natDec]
  have h2 : decimal 4294967301 = "4294967301".toList := by simp [decimal, natDec]
  rw [h1, h2]
  decide

/-- C10 (amended): for every integer `n` representable in the platform `int`, including
`n < 0` and `n > 180`, the line `SERVO1:<n>` issues exactly one write, of `n`, to
actuator 1 and none to actuator 2, prints "Servo1: <n>" and changes no field of the
state; symmetrically `SERVO2:<n>` issues exactly one write, of `n`, to actuator 2 and
none to actuator 1 and prints "Servo2: <n>". No clamping is applied. -/
theorem servo_direct (w t : Nat) (st : State) (n : Int) (hw : 16 ≤ w) (hw2 : w ≤ 32)
    (hn : fitsSigned w n) :
    (processCommand w t st ("SERVO1:".toList ++ decimal n)).1 = st ∧
    (processCommand w t st ("SERVO1:".toList ++ decimal n)).2 =
      [Event.servo1 n, Event.print "Servo1: ".toList, Event.printlnInt n] ∧
    (processCommand w t st ("SERVO1:".toList ++ decimal n)).2.filter Event.isWrite =
      [Event.servo1 n] ∧
    outputLines (processCommand w t st ("SERVO1:".toList ++ decimal n)).2 =
      ["Servo1: ".toList ++ decimal n] ∧
    (processCommand w t st ("SERVO2:".toList ++ decimal n)).1 = st ∧
    (processCommand w t st ("SERVO2:".toList ++ decimal n)).2 =
      [Event.servo2 n, Event.print "Servo2: ".toList, Event.printlnInt n] ∧
    (processCommand w t st ("SERVO2:".toList ++ decimal n)).2.filter Event.isWrite =
      [Event.servo2 n] ∧
    outputLines (processCommand w t st ("SERVO2:".toList ++ decimal n)).2 =
      ["Servo2: ".toList ++ decimal n] := by
  rw [processCommand_servo1, processCommand_servo2, toInt_decimal_self w n hw hw2 hn]
  exact ⟨rfl, rfl, rfl, rfl, rfl, rfl, rfl, rfl⟩

/-- C10 (amended) on `SERVO1:-20` and `SERVO2:200`. -/
theorem servo_direct_witness :
    (processCommand 16 0 initState ("SERVO1:".toList ++ decimal (-20))).2 =
      [Event.servo1 (-20), Event.print "Servo1: ".toList, Event.printlnInt (-20)] ∧
    (processCommand 16 0 initState ("SERVO2:".toList ++ decimal 200)).2 =
      [Event.servo2 200, Event.print "Servo2: ".toList, Event.printlnInt 200] :=
  ⟨(servo_direct 16 0 initState (-20) (by decide) (by decide)
      (by unfold fitsSigned; decide)).2.1,
   (servo_direct 16 0 initState 200 (by decide) (by decide)
      (by unfold fitsSigned; decide)).2.2.2.2.2.1⟩

/-! ## `START`, `STOP` and the motion phase (C11, C12, C15) -/

theorem processCommand_start (w t : Nat) (st : State) :
    processCommand w t st "START".toList =
      ({ st with running := true }, [Event.println "Started".toList]) := by
  have htrim : trim "START".toList = "START".toList := by decide
  unfold processCommand
  simp only [htrim]
  rfl

/-- C11: for every state, `START` sets `running` to true and prints exactly "Started",
and `STOP` sets `running` to false and prints exactly "Stopped"; `speedDelay`,
`reverseCycle`, `reverseStartTime` and `pos` keep their values and the command issues no
actuator write. -/
theorem start_stop_command (w t : Nat) (st : State) :
    processCommand w t st "START".toList =
      ({ pos := st.pos, reverseCycle := st.reverseCycle, running := true,
         speedDelay := st.speedDelay, reverseStartTime := st.reverseStartTime },
       [Event.println "Started".toList]) ∧
    outputLines (processCommand w t st "START".toList).2 = ["Started".toList] ∧
    (processCommand w t st "START".toList).2.filter Event.isWrite = [] ∧
    processCommand w t st "STOP".toList =
      ({ pos := st.pos, reverseCycle := st.reverseCycle, running := false,
         speedDelay := st.speedDelay, reverseStartTime := st.reverseStartTime },
       [Event.println "Stopped".toList]) ∧
    outputLines (processCommand w t st "STOP".toList).2 = ["Stopped".toList] ∧
    (processCommand w t st "STOP".toList).2.filter Event.isWrite = [] := by
  rw [processCommand_start, processCommand_stop]
  exact ⟨rfl, rfl, rfl, rfl, rfl, rfl⟩

theorem passTrace_explicit (st : State) :
    passTrace st = (List.range 181).flatMap (fun p =>
      [Event.servo1 (if st.reverseCycle = true then 180 - (p : Int) else (p : Int)),
       Event.servo2 (180 - (p : Int)), Event.delay (toULong st.speedDelay)]) := by
  unfold passTrace
  congr 1
  funext p
  unfold sweepStep
  cases st.reverseCycle <;> simp

theorem count_flatMap_range {α : Type} [DecidableEq α] (f : Nat → List α) (a : α)
    (h : ∀ i, (f i).count a = 1) (n : Nat) : ((List.range n).flatMap f).count a = n := by
  induction n with
  | zero => simp
  | succ n ih =>
    rw [List.range_succ, List.flatMap_append, List.count_append, ih]
    simp [h]

theorem filter_flatMap_range_length {α : Type} (f : Nat → List α) (q : α → Bool) (k : Nat)
    (h : ∀ i, ((f i).filter q).length = k) (n : Nat) :
    (((List.range n).flatMap f).filter q).length = k * n := by
  induction n with
  | zero => simp
  | succ n ih =>
    rw [List.range_succ, List.flatMap_append, List.filter_append, List.length_append, ih]
    simp [h]
    ring

theorem passTrace_count_delay (st : State) :
    (passTrace st).count (Event.delay (toULong st.speedDelay)) = 181 := by
  unfold passTrace
  apply count_flatMap_range
  intro i
  unfold sweepStep
  cases st.reverseCycle <;> simp [List.count_cons]

theorem passTrace_writes_length (st : State) :
    ((passTrace st).filter Event.isWrite).length = 362 := by
  unfold passTrace
  have := filter_flatMap_range_length (fun i => sweepStep { st with pos := (i : Int) })
    Event.isWrite 2 (by
      intro i
      unfold sweepStep
      cases st.reverseCycle <;> simp [List.filter_cons, Event.isWrite]) 181
  simpa using this

theorem timeoutCheck_events (t : Nat) (st : State) :
    (timeoutCheck t st).2 = [] ∨ (timeoutCheck t st).2 = [timeoutEvent] := by
  unfold timeoutCheck
  split
  · right; rfl
  · left; rfl

/-- C12: the motion phase is decided by `running` alone. With `running` true it performs
exactly 362 steps: two identical passes over the positions 0, 1, ..., 180 in increasing
order, each step writing actuator 1, then actuator 2, then calling `delay(speedDelay)`
(followed only by the timeout line, if any). With `running` false it performs no
actuator write and exactly one pause, of 100 ms. -/
theorem motion_phase (t : Nat) (st : State) :
    (st.running = true →
      (∃ tail : List Event, (tail = [] ∨ tail = [timeoutEvent]) ∧
        (motion t st).2 =
          (List.range 181).flatMap (fun p =>
            [Event.servo1 (if st.reverseCycle = true then 180 - (p : Int) else (p : Int)),
             Event.servo2 (180 - (p : Int)), Event.delay (toULong st.speedDelay)]) ++
          (List.range 181).flatMap (fun p =>
            [Event.servo1 (if st.reverseCycle = true then 180 - (p : Int) else (p : Int)),
             Event.servo2 (180 - (p : Int)), Event.delay (toULong st.speedDelay)]) ++
          tail) ∧
      (motion t st).2.count (Event.delay (toULong st.speedDelay)) = 362 ∧
      ((motion t st).2.filter Event.isWrite).length = 2 * 362) ∧
    (st.running = false →
      (motion t st).2 = [Event.delay 100] ∧ (motion t st).2.filter Event.isWrite = []) ∧
    (0 ≤ st.speedDelay → st.speedDelay < 4294967296 →
      (toULong st.speedDelay : Int) = st.speedDelay) := by
  refine ⟨?_, ?_, ?_⟩
  · intro hrun
    rw [motion_running t st hrun]
    have htail := timeoutCheck_events t { st with pos := 181 }
    refine ⟨⟨_, htail, ?_⟩, ?_, ?_⟩
    · simp only []
      rw [passTrace_explicit st]
    · simp only [List.count_append, passTrace_count_delay]
      rcases htail with h | h <;> rw [h] <;> simp [timeoutEvent, List.count_cons]
    · simp only [List.filter_append, List.length_append, passTrace_writes_length]
      rcases htail with h | h <;> rw [h] <;> simp [timeoutEvent, Event.isWrite]
  · intro hidle
    rw [motion_idle t st hidle]
    exact ⟨rfl, rfl⟩
  · intro h0 h1
    unfold toULong
    rw [Int.emod_eq_of_lt h0 h1]
    exact Int.toNat_of_nonneg h0

/-- C12 on the initial state (idle) and on the initial state with `running` set. -/
theorem motion_phase_witness :
    (motion 0 initState).2 = [Event.delay 100] ∧
    (motion 0 { pos := 0, reverseCycle := false, running := true, speedDelay := 15,
                reverseStartTime := 0 }).2.count (Event.delay 15) = 362 :=
  ⟨((motion_phase 0 initState).2.1 rfl).1,
   ((motion_phase 0 { pos := 0, reverseCycle := false, running := true, speedDelay := 15,
                      reverseStartTime := 0 }).1 rfl).2.1⟩

theorem timeoutCheck_frame (t : Nat) (st : State) :
    (timeoutCheck t st).1.running = st.running ∧
    (timeoutCheck t st).1.speedDelay = st.speedDelay ∧
    (timeoutCheck t st).1.reverseStartTime = st.reverseStartTime ∧
    (timeoutCheck t st).1.pos = st.pos ∧
    ((timeoutCheck t st).1.reverseCycle = st.reverseCycle ∨
      (st.reverseCycle = true ∧ (timeoutCheck t st).1.reverseCycle = false)) := by
  unfold timeoutCheck
  split
  · next h => exact ⟨rfl, rfl, rfl, rfl, Or.inr ⟨h.1, rfl⟩⟩
  · exact ⟨rfl, rfl, rfl, rfl, Or.inl rfl⟩

/-- C15: for every state and clock value, the motion phase (sweeping or idle) leaves
`running`, `speedDelay` and `reverseStartTime` unchanged, and `reverseCycle` is either
unchanged or has gone from true to false; it never goes from false to true. -/
theorem motion_frame (t : Nat) (st : State) :
    (motion t st).1.running = st.running ∧
    (motion t st).1.speedDelay = st.speedDelay ∧
    (motion t st).1.reverseStartTime = st.reverseStartTime ∧
    ((motion t st).1.reverseCycle = st.reverseCycle ∨
      (st.reverseCycle = true ∧ (motion t st).1.reverseCycle = false)) ∧
    ¬ (st.reverseCycle = false ∧ (motion t st).1.reverseCycle = true) := by
  have key : (motion t st).1.running = st.running ∧
      (motion t st).1.speedDelay = st.speedDelay ∧
      (motion t st).1.reverseStartTime = st.reverseStartTime ∧
      ((motion t st).1.reverseCycle = st.reverseCycle ∨
        (st.reverseCycle = true ∧ (motion t st).1.reverseCycle = false)) := by
    cases hr : st.running
    · rw [motion_idle t st hr]
      exact ⟨hr, rfl, rfl, Or.inl rfl⟩
    · rw [motion_running t st hr]
      have h := timeoutCheck_frame t { st with pos := 181 }
      exact ⟨h.1.trans hr, h.2.1, h.2.2.1, h.2.2.2.2⟩
  refine ⟨key.1, key.2.1, key.2.2.1, key.2.2.2, ?_⟩
  rintro ⟨h1, h2⟩
  rcases key.2.2.2 with h | h
  · rw [h, h1] at h2; exact absurd h2 (by decide)
  · rw [h.1] at h1; exact absurd h1 (by decide)

/-! ## The stored position and negative delays (C13, C14) -/

theorem forLoopStates_eq (k : Nat) : ∀ st : State, st.pos = 181 - (k : Int) → k ≤ 181 →
    forLoopStates st =
      (List.range (k + 1)).map (fun i => { st with pos := st.pos + (i : Int) }) := by
  induction k with
  | zero =>
    intro st h _
    rw [forLoopStates]
    have h1 : ¬ st.pos ≤ 180 := by omega
    simp only [h1, if_false]
    cases st
    simp [List.range_succ]
  | succ k ih =>
    intro st h hk
    rw [forLoopStates]
    have h1 : st.pos ≤ 180 := by push_cast at h; omega
    have h2 := ih { st with pos := st.pos + 1 }
      (by show st.pos + 1 = 181 - (k : Int); push_cast at h; omega) (by omega)
    simp only [h1, if_true, h2]
    rw [List.range_succ_eq_map (k + 1), List.map_cons, List.map_map]
    congr 1
    · cases st; simp
    · apply List.map_congr_left
      intro i _
      simp only [Function.comp, Nat.succ_eq_add_one]
      congr 1
      push_cast
      ring

theorem sweepPassStates_eq (st : State) :
    sweepPassStates st = (List.range 182).map (fun i => { st with pos := (i : Int) }) := by
  unfold sweepPassStates
  rw [forLoopStates_eq 181 { st with pos := 0 } (by simp) (by omega)]
  simp

theorem processCommand_pos (w t : Nat) (st : State) (line : List Char) :
    (processCommand w t st line).1.pos = st.pos := by
  unfold processCommand
  simp only []
  split_ifs <;> rfl

theorem pollCommand_pos (w t : Nat) (st : State) (input : List Char) :
    (pollCommand w t st input).1.pos = st.pos := by
  unfold pollCommand
  split
  · exact processCommand_pos w t st _
  · rfl

theorem loop_pos (w tCmd tEnd : Nat) (st : State) (input : List Char) :
    (loop w tCmd tEnd st input).1.pos = st.pos ∨ (loop w tCmd tEnd st input).1.pos = 181 := by
  simp only [loop]
  cases hr : (pollCommand w tCmd st input).1.running
  · left
    rw [motion_idle _ _ hr]
    exact pollCommand_pos w tCmd st input
  · right
    rw [motion_running _ _ hr]
    exact (timeoutCheck_frame tEnd { (pollCommand w tCmd st input).1 with pos := 181 }).2.2.2.1

theorem reachable_pos (w : Nat) (st : State) (h : Reachable w st) :
    st.pos = 0 ∨ st.pos = 181 := by
  induction h with
  | init => left; rfl
  | step st tCmd tEnd input _ ih =>
    rcases loop_pos w tCmd tEnd st input with h1 | h1
    · rw [h1]; exact ih
    · right; exact h1

theorem loop_start_pos (tCmd tEnd : Nat) :
    (loop 16 tCmd tEnd initState "START\n".toList).1.pos = 181 := by
  have hp : pollCommand 16 tCmd initState "START\n".toList =
      ({ initState with running := true }, [], [Event.println "Started".toList]) := by
    rw [pollCommand_cons 16 tCmd initState _ (by decide)]
    have hr : readStringUntil '\n' "START\n".toList = ("START".toList, []) := by decide
    rw [hr, processCommand_start]
  simp only [loop, hp]
  rw [motion_running _ _ rfl]
  exact (timeoutCheck_frame tEnd _).2.2.2.1

/-- C13 as stated fails: after the iteration that reads `START` from the initial state
the stored position is 181, not at most 180, and 181 is also the position at the point
where a pass has just finished. -/
theorem position_bound_counterexample :
    Reachable 16 (loop 16 0 0 initState "START\n".toList).1 ∧
    ¬ ((loop 16 0 0 initState "START\n".toList).1.pos ≤ 180) ∧
    ¬ ((sweepPass initState).1.pos ≤ 180) := by
  refine ⟨Reachable.step initState 0 0 _ Reachable.init, ?_, ?_⟩
  · rw [loop_start_pos]; decide
  · rw [sweepPass_trace]; decide

/-- C13 (amended): the stored position satisfies `0 ≤ pos ≤ 181` in every state
reachable from the initial state by any sequence of loop iterations and at every point
inside a sweep pass; it is at most 180 at every point where a sweep step is executed and
equals 181 at the point where a pass has just finished; and `pos` equals 0 at the start
of every sweep pass. -/
theorem position_bound (w : Nat) (st : State) :
    (Reachable w st → 0 ≤ st.pos ∧ st.pos ≤ 181) ∧
    (∀ s ∈ sweepPassStates st, 0 ≤ s.pos ∧ s.pos ≤ 181) ∧
    (∀ s ∈ (sweepPassStates st).dropLast, 0 ≤ s.pos ∧ s.pos ≤ 180) ∧
    (sweepPass st).2 = (sweepPassStates st).dropLast.flatMap sweepStep ∧
    (sweepPassStates st).getLast? = some (sweepPass st).1 ∧
    (sweepPass st).1.pos = 181 ∧
    (sweepPassStates st).head? = some { st with pos := 0 } := by
  have hs := sweepPassStates_eq st
  have hd : (sweepPassStates st).dropLast =
      (List.range 181).map (fun i => { st with pos := (i : Int) }) := by
    rw [hs, List.range_succ, List.map_append]
    simp
  refine ⟨?_, ?_, ?_, ?_, ?_, ?_, ?_⟩
  · intro h
    rcases reachable_pos w st h with h | h <;> rw [h] <;> decide
  · intro s hmem
    rw [hs, List.mem_map] at hmem
    obtain ⟨i, hi, rfl⟩ := hmem
    rw [List.mem_range] at hi
    show (0 : Int) ≤ (i : Int) ∧ (i : Int) ≤ 181
    omega
  · intro s hmem
    rw [hd, List.mem_map] at hmem
    obtain ⟨i, hi, rfl⟩ := hmem
    rw [List.mem_range] at hi
    show (0 : Int) ≤ (i : Int) ∧ (i : Int) ≤ 180
    omega
  · rw [sweepPass_trace, hd, List.flatMap_map]
    rfl
  · rw [sweepPass_trace, hs, List.range_succ, List.map_append]
    simp
  · rw [sweepPass_trace]
  · rw [hs, List.range_succ_eq_map]
    simp

/-- C13 (amended) on the state reached by one iteration that reads `START`. -/
theorem position_bound_witness :
    Reachable 16 (loop 16 0 0 initState "START\n".toList).1 ∧
    (0 ≤ (loop 16 0 0 initState "START\n".toList).1.pos ∧
      (loop 16 0 0 initState "START\n".toList).1.pos ≤ 181) :=
  ⟨Reachable.step initState 0 0 _ Reachable.init,
   (position_bound 16 (loop 16 0 0 initState "START\n".toList).1).1
     (Reachable.step initState 0 0 _ Reachable.init)⟩

theorem toULong_neg (v : Int) (h1 : -4294967296 ≤ v) (h2 : v < 0) :
    (toULong v : Int) = 4294967296 + v := by
  unfold toULong
  omega

theorem toULong_nonneg (u : Int) (h1 : 0 ≤ u) (h2 : u < 4294967296) :
    (toULong u : Int) = u := by
  unfold toULong
  omega

/-- C14 as stated fails: `SPEED:-1` stores -1 in `speedDelay`, and the pause then
requested at every sweep step is `delay(4294967295)`, longer than the pause requested
for `speedDelay = 0` or for `speedDelay = 15`. -/
theorem negative_delay_counterexample :
    (processCommand 16 0 initState "SPEED:-1".toList).1.speedDelay = -1 ∧
    sweepStep { pos := 0, reverseCycle := false, running := true, speedDelay := -1,
                reverseStartTime := 0 } =
      [Event.servo1 0, Event.servo2 180, Event.delay 4294967295] ∧
    sweepStep { pos := 0, reverseCycle := false, running := true, speedDelay := 0,
                reverseStartTime := 0 } =
      [Event.servo1 0, Event.servo2 180, Event.delay 0] ∧
    ¬ (toULong (-1) ≤ toULong 0) ∧ ¬ (toULong (-1) ≤ toULong 15) := by
  decide

/-- C14 (amended): a negative speed delay gives a longer pause, not faster motion. For
every negative `int` value `v` of `speedDelay`, the pause requested at each sweep step
(the `int` converted to the `unsigned long` parameter of `delay`) is `2^32 + v` ms, which
is longer than the pause requested for `speedDelay = 0` or for any positive `int`
`speedDelay`, whose requested pause is the value itself. -/
theorem negative_delay (w : Nat) (v u : Int) (st : State) (hw : 1 ≤ w) (hw2 : w ≤ 32)
    (hv : fitsSigned w v) (hu : fitsSigned w u) (hneg : v < 0) (hnn : 0 ≤ u) :
    (toULong v : Int) = 4294967296 + v ∧
    (toULong u : Int) = u ∧
    toULong u < toULong v ∧
    (passTrace { st with speedDelay := v }).count (Event.delay (toULong v)) = 181 ∧
    (passTrace { st with speedDelay := u }).count (Event.delay (toULong u)) = 181 := by
  have hv32 := fitsSigned_mono w 32 v hw2 hw hv
  have hu32 := fitsSigned_mono w 32 u hw2 hw hu
  unfold fitsSigned at hv32 hu32
  norm_num at hv32 hu32
  have h1 := toULong_neg v (by omega) hneg
  have h2 := toULong_nonneg u hnn (by omega)
  refine ⟨h1, h2, by omega, ?_, ?_⟩
  · exact passTrace_count_delay { st with speedDelay := v }
  · exact passTrace_count_delay { st with speedDelay := u }

/-- C14 (amended) with a 16-bit `int`, `speedDelay = -1` against `speedDelay = 15`. -/
theorem negative_delay_witness :
    (toULong (-1) : Int) = 4294967296 + (-1) ∧ toULong 15 < toULong (-1) :=
  ⟨(negative_delay 16 (-1) 15 initState (by decide) (by decide)
      (by unfold fitsSigned; decide) (by unfold fitsSigned; decide)
      (by decide) (by decide)).1,
   (negative_delay 16 (-1) 15 initState (by decide) (by decide)
      (by unfold fitsSigned; decide) (by unfold fitsSigned; decide)
      (by decide) (by decide)).2.2.1⟩

/-! ## Whitespace, case and the receive queue (C16, C18) -/

theorem dropWhile_skip_ws (ws x : List Char) (hws : ∀ c ∈ ws, isspace c = true) :
    (ws ++ x).dropWhile isspace = x.dropWhile isspace := by
  induction ws with
  | nil => rfl
  | cons a l ih =>
    have ha : isspace a = true := hws a (by simp)
    simp only [List.cons_append, List.dropWhile_cons, ha, if_true]
    exact ih (fun c hc => hws c (List.mem_cons_of_mem _ hc))

theorem trimEnd_append_ws (y ws : List Char) (hws : ∀ c ∈ ws, isspace c = true) :
    trimEnd (y ++ ws) = trimEnd y := by
  unfold trimEnd
  rw [List.reverse_append, dropWhile_skip_ws ws.reverse y.reverse
    (fun c hc => hws c (List.mem_reverse.mp hc))]

theorem trim_pad (line ws1 ws2 : List Char) (h1 : ∀ c ∈ ws1, isspace c = true)
    (h2 : ∀ c ∈ ws2, isspace c = true) : trim (ws1 ++ line ++ ws2) = trim line := by
  unfold trim
  rw [List.append_assoc, dropWhile_skip_ws ws1 _ h1]
  cases hd : line.dropWhile isspace with
  | nil =>
    have : (line ++ ws2).dropWhile isspace = [] := by
      rw [List.dropWhile_eq_nil_iff] at hd ⊢
      intro c hc
      rcases List.mem_append.mp hc with h | h
      · exact hd c h
      · exact h2 c h
    rw [this]
  | cons c r =>
    have : (line ++ ws2).dropWhile isspace = (c :: r) ++ ws2 := by
      rw [List.dropWhile_append, hd]; simp
    rw [this, trimEnd_append_ws _ ws2 h2]

theorem processCommand_trim (w t : Nat) (st : State) (a b : List Char) (h : trim a = trim b) :
    processCommand w t st a = processCommand w t st b := by
  unfold processCommand
  rw [h]

/-- C16: command dispatch ignores surrounding whitespace and is case-sensitive. For
every line and every run of whitespace characters (space, tab, CR, LF, VT, FF) put before
and after it, dispatching the padded line gives the same state and the same events
(hence the same output lines and actuator writes) as dispatching the line itself; the
same holds for a padded line read from the link when the padding holds no line
terminator; and the case variants `start` and `speed:5` change nothing and print
nothing. -/
theorem whitespace_insensitive (w t : Nat) (st : State) (line ws1 ws2 : List Char)
    (h1 : ∀ c ∈ ws1, isspace c = true) (h2 : ∀ c ∈ ws2, isspace c = true) :
    processCommand w t st (ws1 ++ line ++ ws2) = processCommand w t st line ∧
    outputLines (processCommand w t st (ws1 ++ line ++ ws2)).2 =
      outputLines (processCommand w t st line).2 ∧
    (processCommand w t st (ws1 ++ line ++ ws2)).2.filter Event.isWrite =
      (processCommand w t st line).2.filter Event.isWrite ∧
    (∀ rest : List Char, (∀ c ∈ ws1 ++ line ++ ws2, c ≠ '\n') →
      pollCommand w t st (ws1 ++ line ++ ws2 ++ '\n' :: rest) =
        pollCommand w t st (line ++ '\n' :: rest)) ∧
    isspace ' ' = true ∧ isspace '\t' = true ∧ isspace '\r' = true ∧ isspace '\n' = true ∧
    processCommand w t st "start".toList = (st, []) ∧
    processCommand w t st "speed:5".toList = (st, []) := by
  have hp := processCommand_trim w t st _ _ (trim_pad line ws1 ws2 h1 h2)
  refine ⟨hp, by rw [hp], by rw [hp], ?_, by decide, by decide, by decide, by decide, ?_, ?_⟩
  · intro rest hnl
    have hl : ∀ c ∈ line, c ≠ '\n' := fun c hc =>
      hnl c (List.mem_append_left _ (List.mem_append_right _ hc))
    rw [pollCommand_cons w t st _ (by simp), pollCommand_cons w t st _ (by simp),
      readStringUntil_line _ rest hnl, readStringUntil_line _ rest hl, hp]
  · have htrim : trim "start".toList = "start".toList := by decide
    unfold processCommand
    simp only [htrim]
    rfl
  · have htrim : trim "speed:5".toList = "speed:5".toList := by decide
    unfold processCommand
    simp only [htrim]
    rfl

/-- C16 on `START` padded with a space and a tab in front and CR, LF behind. -/
theorem whitespace_insensitive_witness :
    processCommand 16 0 initState (" \t".toList ++ "START".toList ++ "\r\n".toList) =
      processCommand 16 0 initState "START".toList ∧
    processCommand 16 0 initState "start".toList = (initState, []) :=
  ⟨(whitespace_insensitive 16 0 initState "START".toList " \t".toList "\r\n".toList
      (by decide) (by decide)).1,
   (whitespace_insensitive 16 0 initState "START".toList " \t".toList "\r\n".toList
      (by decide) (by decide)).2.2.2.2.2.2.2.2.1⟩

theorem loop_line (w tCmd tEnd : Nat) (st : State) (l rest : List Char)
    (hl : ∀ c ∈ l, c ≠ '\n') :
    loop w tCmd tEnd st (l ++ '\n' :: rest) =
      ((motion tEnd (processCommand w tCmd st l).1).1, rest,
        (processCommand w tCmd st l).2 ++ (motion tEnd (processCommand w tCmd st l).1).2) := by
  simp only [loop]
  rw [pollCommand_cons w tCmd st _ (by simp), readStringUntil_line l rest hl]

theorem joinLines_ne_nil (l : List Char) (ls : List (List Char)) : joinLines (l :: ls) ≠ [] := by
  unfold joinLines
  simp

theorem iterations_queue (w : Nat) (ts : List (Nat × Nat)) :
    ∀ (lines : List (List Char)) (st : State), (∀ l ∈ lines, ∀ c ∈ l, c ≠ '\n') →
      ts.length ≤ lines.length →
      (iterations w ts st (joinLines lines)).2.1 = joinLines (lines.drop ts.length) := by
  induction ts with
  | nil => intro lines st _ _; rfl
  | cons a ts ih =>
    intro lines st hl hlen
    obtain ⟨tc, te⟩ := a
    cases lines with
    | nil => simp at hlen
    | cons l ls =>
      unfold iterations
      simp only [joinLines, List.length_cons, List.drop_succ_cons]
      rw [loop_line w tc te st l (joinLines ls) (hl l (by simp))]
      exact ih ls _ (fun x hx => hl x (List.mem_cons_of_mem _ hx))
        (by simp at hlen; omega)

/-- C18: one iteration consumes exactly one queued line. For a receive buffer holding
the `k ≥ 1` lines `l, ls...`, one iteration removes and applies exactly `l`, then runs the
motion phase (a full cycle or the idle pause), and leaves the other `k - 1` lines queued
in order; after `j ≤ k` iterations exactly the first `j` lines are gone, so the buffer is
empty after `k` iterations and not before. -/
theorem one_line_per_iteration (w tCmd tEnd : Nat) (st : State) (l : List Char)
    (ls : List (List Char)) (hl : ∀ c ∈ l, c ≠ '\n') (hls : ∀ x ∈ ls, ∀ c ∈ x, c ≠ '\n') :
    (loop w tCmd tEnd st (joinLines (l :: ls))).2.1 = joinLines ls ∧
    (loop w tCmd tEnd st (joinLines (l :: ls))).1 =
      (motion tEnd (processCommand w tCmd st l).1).1 ∧
    (loop w tCmd tEnd st (joinLines (l :: ls))).2.2 =
      (processCommand w tCmd st l).2 ++ (motion tEnd (processCommand w tCmd st l).1).2 ∧
    (∀ ts : List (Nat × Nat), ts.length ≤ (l :: ls).length →
      (iterations w ts st (joinLines (l :: ls))).2.1 = joinLines ((l :: ls).drop ts.length) ∧
      (ts.length = (l :: ls).length → (iterations w ts st (joinLines (l :: ls))).2.1 = []) ∧
      (ts.length < (l :: ls).length →
        (iterations w ts st (joinLines (l :: ls))).2.1 ≠ [])) := by
  have h := loop_line w tCmd tEnd st l (joinLines ls) hl
  have hj : joinLines (l :: ls) = l ++ '\n' :: joinLines ls := rfl
  rw [hj, h]
  refine ⟨rfl, rfl, rfl, ?_⟩
  intro ts hlen
  have hall : ∀ x ∈ l :: ls, ∀ c ∈ x, c ≠ '\n' := by
    intro x hx
    rcases List.mem_cons.mp hx with h | h
    · rw [h]; exact hl
    · exact hls x h
  have hq := iterations_queue w ts (l :: ls) st hall hlen
  rw [← hj, hq]
  refine ⟨rfl, ?_, ?_⟩
  · intro he
    rw [he, List.drop_length]
    rfl
  · intro hlt
    obtain ⟨x, xs, hx⟩ : ∃ x xs, (l :: ls).drop ts.length = x :: xs := by
      cases hd : (l :: ls).drop ts.length with
      | nil =>
        have := List.drop_eq_nil_iff.mp hd
        omega
      | cons x xs => exact ⟨x, xs, rfl⟩
    rw [hx]
    exact joinLines_ne_nil x xs

/-- C18 on the queue `SPEED:5`, `START`: one iteration leaves `START` queued. -/
theorem one_line_per_iteration_witness :
    (loop 16 0 0 initState (joinLines ["SPEED:5".toList, "START".toList])).2.1 =
      joinLines ["START".toList] ∧
    (iterations 16 [(0, 0), (1, 1)] initState
      (joinLines ["SPEED:5".toList, "START".toList])).2.1 = [] :=
  ⟨(one_line_per_iteration 16 0 0 initState "SPEED:5".toList ["START".toList]
      (by decide) (by decide)).1,
   ((one_line_per_iteration 16 0 0 initState "SPEED:5".toList ["START".toList]
      (by decide) (by decide)).2.2.2 [(0, 0), (1, 1)] (by decide)).2.1 rfl⟩

/-! ## End-to-end scenario (C17) -/

theorem passTrace_expected (st : State) (d : Nat) (hd : toULong st.speedDelay = d) :
    passTrace st = expectedPass st.reverseCycle d := by
  rw [passTrace_explicit, hd]
  rfl

theorem outputLinesAux_no_print (es : List Event) (h : ∀ ev ∈ es, ev.isPrint = false) :
    ∀ (cur : List Char) (rest : List Event),
      outputLinesAux cur (es ++ rest) = outputLinesAux cur rest := by
  induction es with
  | nil => intro cur rest; rfl
  | cons e es ih =>
    intro cur rest
    have he := h e (by simp)
    have hes : ∀ ev ∈ es, ev.isPrint = false := fun ev hev => h ev (List.mem_cons_of_mem _ hev)
    cases e with
    | servo1 a => simp only [List.cons_append, outputLinesAux]; exact ih hes cur rest
    | servo2 a => simp only [List.cons_append, outputLinesAux]; exact ih hes cur rest
    | delay a => simp only [List.cons_append, outputLinesAux]; exact ih hes cur rest
    | print s => exact absurd he (by simp [Event.isPrint])
    | println s => exact absurd he (by simp [Event.isPrint])
    | printlnInt v => exact absurd he (by simp [Event.isPrint])

theorem outputLinesAux_delay (cur : List Char) (d : Nat) (es : List Event) :
    outputLinesAux cur (Event.delay d :: es) = outputLinesAux cur es := rfl

theorem toInt_five (w : Nat) (hw : 16 ≤ w) : toInt w "5".toList = 5 :=
  toInt_small w _ 5 hw (by decide) (by decide) (by decide)

theorem toInt_one (w : Nat) (hw : 16 ≤ w) : toInt w "1".toList = 1 :=
  toInt_small w _ 1 hw (by decide) (by decide) (by decide)

/-- C17: from the initial state with `SPEED:5` and `START` queued, the first iteration
prints "Speed set to: 5" and idles, the second prints "Started" and runs one full cycle
of two forward passes (actuator 1 = `p`, actuator 2 = `180 - p`) in which every one of
the 362 pauses is 5 ms; with `REVERSE:1` fed next, the third iteration prints
"Reverse mode ON" and runs a cycle whose two passes send `180 - p` to actuator 1 at
every step. -/
theorem end_to_end (w t1 t2 t3 t4 t5 t6 : Nat) (hw : 16 ≤ w) :
    (loop w t1 t2 initState "SPEED:5\nSTART\n".toList).2.2 =
      [Event.print "Speed set to: ".toList, Event.printlnInt 5, Event.delay 100] ∧
    (loop w t3 t4 (loop w t1 t2 initState "SPEED:5\nSTART\n".toList).1
        (loop w t1 t2 initState "SPEED:5\nSTART\n".toList).2.1).2.2 =
      Event.println "Started".toList :: (expectedPass false 5 ++ expectedPass false 5) ∧
    outputLines
      ((loop w t1 t2 initState "SPEED:5\nSTART\n".toList).2.2 ++
       (loop w t3 t4 (loop w t1 t2 initState "SPEED:5\nSTART\n".toList).1
        (loop w t1 t2 initState "SPEED:5\nSTART\n".toList).2.1).2.2) =
      ["Speed set to: 5".toList, "Started".toList] ∧
    (expectedPass false 5 ++ expectedPass false 5).count (Event.delay 5) = 362 ∧
    (∃ tail : List Event, (tail = [] ∨ tail = [timeoutEvent]) ∧
      (loop w t5 t6
        (loop w t3 t4 (loop w t1 t2 initState "SPEED:5\nSTART\n".toList).1
          (loop w t1 t2 initState "SPEED:5\nSTART\n".toList).2.1).1
        ((loop w t3 t4 (loop w t1 t2 initState "SPEED:5\nSTART\n".toList).1
          (loop w t1 t2 initState "SPEED:5\nSTART\n".toList).2.1).2.1 ++
          "REVERSE:1\n".toList)).2.2 =
        Event.println "Reverse mode ON".toList ::
          (expectedPass true 5 ++ expectedPass true 5 ++ tail)) := by
  -- first iteration: `SPEED:5`
  have e1 : "SPEED:5\nSTART\n".toList = "SPEED:5".toList ++ '\n' :: "START\n".toList := rfl
  have e1' : "SPEED:5".toList = "SPEED:".toList ++ "5".toList := rfl
  have s1 : processCommand w t1 initState "SPEED:5".toList =
      (State.mk 0 false false 5 0,
        [Event.print "Speed set to: ".toList, Event.printlnInt 5]) := by
    rw [e1', processCommand_speed, toInt_five w hw]
    rfl
  have l1 : loop w t1 t2 initState "SPEED:5\nSTART\n".toList =
      (State.mk 0 false false 5 0, "START\n".toList,
        [Event.print "Speed set to: ".toList, Event.printlnInt 5, Event.delay 100]) := by
    rw [e1, loop_line w t1 t2 initState _ _ (by decide), s1,
      motion_idle t2 (State.mk 0 false false 5 0) rfl]
    rfl
  -- second iteration: `START`
  have e2 : "START\n".toList = "START".toList ++ '\n' :: [] := rfl
  have hk2 := timeoutCheck_keep t4 (State.mk 181 false true 5 0) (Or.inl rfl)
  have hp2 : passTrace (State.mk 0 false true 5 0) = expectedPass false 5 :=
    passTrace_expected (State.mk 0 false true 5 0) 5 (by decide)
  have m2 : motion t4 (State.mk 0 false true 5 0) =
      (State.mk 181 false true 5 0, expectedPass false 5 ++ expectedPass false 5) := by
    rw [motion_running t4 (State.mk 0 false true 5 0) rfl]
    show ((timeoutCheck t4 (State.mk 181 false true 5 0)).1,
      passTrace (State.mk 0 false true 5 0) ++ passTrace (State.mk 0 false true 5 0) ++
        (timeoutCheck t4 (State.mk 181 false true 5 0)).2) = _
    rw [hk2, hp2, List.append_nil]
  have l2 : loop w t3 t4 (State.mk 0 false false 5 0) "START\n".toList =
      (State.mk 181 false true 5 0, [],
        Event.println "Started".toList :: (expectedPass false 5 ++ expectedPass false 5)) := by
    rw [e2, loop_line w t3 t4 _ _ _ (by decide), processCommand_start]
    show ((motion t4 (State.mk 0 false true 5 0)).1, ([] : List Char),
      [Event.println "Started".toList] ++ (motion t4 (State.mk 0 false true 5 0)).2) = _
    rw [m2]
    rfl
  -- third iteration: `REVERSE:1`
  have e3 : ([] : List Char) ++ "REVERSE:1\n".toList = "REVERSE:1".toList ++ '\n' :: [] := rfl
  have e3' : "REVERSE:1".toList = "REVERSE:".toList ++ "1".toList := rfl
  have s3 : processCommand w t5 (State.mk 181 false true 5 0) "REVERSE:1".toList =
      (State.mk 181 true true 5 (millis t5), [Event.println "Reverse mode ON".toList]) := by
    rw [e3', processCommand_reverse, toInt_one w hw, if_pos ⟨rfl, rfl⟩]
  have hp3 : passTrace (State.mk 181 true true 5 (millis t5)) = expectedPass true 5 :=
    passTrace_expected (State.mk 181 true true 5 (millis t5)) 5 (by show toULong 5 = 5; decide)
  rw [l1]
  simp only []
  rw [l2]
  simp only []
  refine ⟨?_, ?_, ?_, ?_, ?_⟩
  · first | rfl | trivial
  · first | rfl | trivial
  · have hnp : ∀ ev ∈ expectedPass false 5 ++ expectedPass false 5, ev.isPrint = false := by
      intro ev hev
      rw [← hp2] at hev
      rcases List.mem_append.mp hev with h | h <;> exact passTrace_not_print _ ev h
    have h5 : decimal 5 = "5".toList := by simp [decimal, natDec]
    have := outputLinesAux_no_print _ hnp [] []
    simp only [List.append_nil] at this
    show outputLinesAux [] (Event.print "Speed set to: ".toList :: Event.printlnInt 5 ::
      Event.delay 100 :: Event.println "Started".toList ::
        (expectedPass false 5 ++ expectedPass false 5)) = _
    rw [outputLinesAux, outputLinesAux, outputLinesAux_delay, outputLinesAux, this, h5]
    rfl
  · rw [← hp2, List.count_append]
    have := passTrace_count_delay (State.mk 0 false true 5 0)
    have h5 : toULong (State.mk 0 false true 5 0).speedDelay = 5 := by decide
    rw [h5] at this
    rw [this]
  · rw [e3, loop_line w t5 t6 _ _ _ (by decide), s3,
      motion_running t6 (State.mk 181 true true 5 (millis t5)) rfl, hp3]
    exact ⟨_, timeoutCheck_events t6 (State.mk 181 true true 5 (millis t5)), by simp⟩

/-- C17 with a 16-bit `int` and a clock that advances by 1810 ms per cycle. -/
theorem end_to_end_witness :
    (loop 16 0 100 initState "SPEED:5\nSTART\n".toList).2.2 =
      [Event.print "Speed set to: ".toList, Event.printlnInt 5, Event.delay 100] ∧
    (loop 16 100 1910 (loop 16 0 100 initState "SPEED:5\nSTART\n".toList).1
        (loop 16 0 100 initState "SPEED:5\nSTART\n".toList).2.1).2.2 =
      Event.println "Started".toList :: (expectedPass false 5 ++ expectedPass false 5) :=
  ⟨(end_to_end 16 0 100 100 1910 1910 3720 (by decide)).1,
   (end_to_end 16 0 100 100 1910 1910 3720 (by decide)).2.1⟩

/-! ## The `REVERSE:` payload and clock wrap-around (C19, C20) -/

/-- C19: the payload of `REVERSE:` is judged by its best-effort integer value alone. If
the payload parses to 0, which includes an empty payload and a payload with no leading
number such as `abc`, the command behaves exactly like `REVERSE:0`: `reverseCycle`
becomes false and "Reverse mode OFF" is printed. If it parses to an integer other than
0 and 1, such as `2` or `-1`, the command changes no field and prints nothing. -/
theorem reverse_payload (w t : Nat) (st : State) (s : List Char) (hw : 16 ≤ w) :
    (toInt w s = 0 →
      processCommand w t st ("REVERSE:".toList ++ s) =
        ({ st with reverseCycle := false }, [Event.println "Reverse mode OFF".toList]) ∧
      processCommand w t st ("REVERSE:".toList ++ s) =
        processCommand w t st "REVERSE:0".toList) ∧
    (hasLeadingNumber s = false → toInt w s = 0) ∧
    toInt w [] = 0 ∧ toInt w "abc".toList = 0 ∧
    (toInt w s ≠ 0 → toInt w s ≠ 1 →
      processCommand w t st ("REVERSE:".toList ++ s) = (st, [])) ∧
    toInt w "2".toList = 2 ∧ toInt w "-1".toList = -1 ∧
    processCommand w t st "REVERSE:2".toList = (st, []) ∧
    processCommand w t st "REVERSE:-1".toList = (st, []) := by
  have h2 : toInt w "2".toList = 2 := toInt_small w _ 2 hw (by decide) (by decide) (by decide)
  have hm1 : toInt w "-1".toList = -1 :=
    toInt_small w _ (-1) hw (by decide) (by decide) (by decide)
  have hgen : ∀ x : List Char, toInt w x ≠ 0 → toInt w x ≠ 1 →
      processCommand w t st ("REVERSE:".toList ++ x) = (st, []) := by
    intro x h0 h1
    rw [processCommand_reverse, if_neg (fun hc => h1 hc.1), if_neg h0]
  refine ⟨?_, toInt_of_no_number w s hw, toInt_of_no_number w [] hw (by decide),
    toInt_of_no_number w _ hw (by decide), hgen s, h2, hm1, ?_, ?_⟩
  · intro h0
    have h : processCommand w t st ("REVERSE:".toList ++ s) =
        ({ st with reverseCycle := false }, [Event.println "Reverse mode OFF".toList]) := by
      rw [processCommand_reverse, h0, if_neg (fun hc => absurd hc.1 (by decide)), if_pos rfl]
    exact ⟨h, by rw [h, processCommand_reverse_off w t st hw]⟩
  · exact hgen "2".toList (by rw [h2]; decide) (by rw [h2]; decide)
  · exact hgen "-1".toList (by rw [hm1]; decide) (by rw [hm1]; decide)

/-- C19 on `REVERSE:abc` from a state in reverse mode, with a 16-bit `int`. -/
theorem reverse_payload_witness :
    processCommand 16 0
      { pos := 0, reverseCycle := true, running := true, speedDelay := 15,
        reverseStartTime := 7 } ("REVERSE:".toList ++ "abc".toList) =
      ({ pos := 0, reverseCycle := false, running := true, speedDelay := 15,
         reverseStartTime := 7 }, [Event.println "Reverse mode OFF".toList]) :=
  ((reverse_payload 16 0
      { pos := 0, reverseCycle := true, running := true, speedDelay := 15,
        reverseStartTime := 7 } "abc".toList (by decide)).1 (by decide)).1

/-- C20: the timeout test is exact across wrap-around of the millisecond clock. With
reverse mode enabled at uptime `T0` and the test made at uptime `T0 + e`, `e < 2^32`, the
32-bit difference `millis() - reverseStartTime` equals `e`, also when the clock has
wrapped in between; so the test at the end of a cycle clears `reverseCycle` and prints
the timeout line exactly when `e ≥ 120000`. This holds as well with `reverseStartTime`
stamped by the `REVERSE:1` command itself. -/
theorem timeout_wraparound (w T0 e : Nat) (st : State) (hw : 16 ≤ w)
    (he : e < 4294967296) (hrev : st.reverseCycle = true)
    (hT0 : st.reverseStartTime = millis T0) :
    millis T0 < 4294967296 ∧ millis (T0 + e) < 4294967296 ∧
    subULong (millis (T0 + e)) st.reverseStartTime = e ∧
    ((timeoutCheck (T0 + e) st).1.reverseCycle = false ↔ 120000 ≤ e) ∧
    ((timeoutCheck (T0 + e) st).2 = [timeoutEvent] ↔ 120000 ≤ e) ∧
    (st.running = true →
      ((motion (T0 + e) st).1.reverseCycle = false ↔ 120000 ≤ e)) ∧
    (∀ s0 : State, s0.reverseCycle = false → s0.running = true →
      ((motion (T0 + e) (processCommand w T0 s0 "REVERSE:1".toList).1).1.reverseCycle = false
        ↔ 120000 ≤ e)) := by
  have hsub : subULong (millis (T0 + e)) st.reverseStartTime = e := by
    rw [hT0]; exact subULong_millis T0 e he
  have key : ∀ s : State, s.reverseCycle = true → s.reverseStartTime = millis T0 →
      ((timeoutCheck (T0 + e) s).1.reverseCycle = false ↔ 120000 ≤ e) ∧
      ((timeoutCheck (T0 + e) s).2 = [timeoutEvent] ↔ 120000 ≤ e) := by
    intro s hr hs
    have hs2 : subULong (millis (T0 + e)) s.reverseStartTime = e := by
      rw [hs]; exact subULong_millis T0 e he
    by_cases hge : 120000 ≤ e
    · rw [timeoutCheck_fire (T0 + e) s hr (by rw [hs2]; exact hge)]
      exact ⟨⟨fun _ => hge, fun _ => rfl⟩, ⟨fun _ => hge, fun _ => rfl⟩⟩
    · rw [timeoutCheck_keep (T0 + e) s (Or.inr (by rw [hs2]; omega))]
      constructor
      · constructor
        · intro h; rw [hr] at h; exact absurd h (by decide)
        · intro h; exact absurd h hge
      · constructor
        · intro h; exact absurd h (by simp)
        · intro h; exact absurd h hge
  have hmot : ∀ s : State, s.running = true → s.reverseCycle = true →
      s.reverseStartTime = millis T0 →
      ((motion (T0 + e) s).1.reverseCycle = false ↔ 120000 ≤ e) := by
    intro s hrun hr hs
    rw [motion_running (T0 + e) s hrun]
    exact (key { s with pos := 181 } hr hs).1
  refine ⟨?_, ?_, hsub, (key st hrev hT0).1, (key st hrev hT0).2, ?_, ?_⟩
  · unfold millis; omega
  · unfold millis; omega
  · intro hrun
    exact hmot st hrun hrev hT0
  · intro s0 h0 hrun
    have e1 : "REVERSE:1".toList = "REVERSE:".toList ++ "1".toList := rfl
    have hv : toInt w "1".toList = 1 := toInt_small w _ 1 hw (by decide) (by decide) (by decide)
    have hc : processCommand w T0 s0 "REVERSE:1".toList =
        ({ s0 with reverseCycle := true, reverseStartTime := millis T0 },
          [Event.println "Reverse mode ON".toList]) := by
      rw [e1, processCommand_reverse, hv, if_pos ⟨rfl, h0⟩]
    rw [hc]
    exact hmot { s0 with reverseCycle := true, reverseStartTime := millis T0 } hrun rfl rfl

/-- C20 with reverse mode enabled 1000 ms before the clock wraps and tested 120000 ms
later, after the wrap. -/
theorem timeout_wraparound_witness :
    millis (4294966296 + 120000) = 119000 ∧
    subULong (millis (4294966296 + 120000))
      ({ pos := 181, reverseCycle := true, running := true, speedDelay := 15,
         reverseStartTime := 4294966296 } : State).reverseStartTime = 120000 ∧
    (timeoutCheck (4294966296 + 120000)
      { pos := 181, reverseCycle := true, running := true, speedDelay := 15,
        reverseStartTime := 4294966296 }).1.reverseCycle = false :=
  ⟨by decide,
   (timeout_wraparound 16 4294966296 120000
      { pos := 181, reverseCycle := true, running := true, speedDelay := 15,
        reverseStartTime := 4294966296 } (by decide) (by decide) rfl (by decide)).2.2.1,
   (timeout_wraparound 16 4294966296 120000
      { pos := 181, reverseCycle := true, running := true, speedDelay := 15,
        reverseStartTime := 4294966296 } (by decide) (by decide) rfl (by decide)).2.2.2.1.mpr
      (by decide)⟩

end Arcode1
